import Mathlib

/-
Verification of the godsim procedural planet-generation pipeline.

The C++ core (TerrainGenerator, ClimateGenerator, Heightmap, PerlinNoise,
RNG, classify_biome, BinaryWriter/BinaryReader) is shallowly embedded here.
Real (f32/f64) arithmetic is modelled exactly over the rationals; libm
calls without rational semantics (std::sqrt, std::pow, std::exp) are
passed in as explicit function parameters, and a float division whose
divisor can be zero (an IEEE NaN) is modelled as an Option-valued cell.
Machine integers (u32/u64 in pcg32 and the permutation-table shuffle) are
naturals reduced mod 2^32 / 2^64 where the code wraps.
-/

set_option allowUnsafeReducibility true in
attribute [semireducible] Rat.add Rat.mul Rat.inv Rat.sub Rat.neg Rat.div Rat.blt

set_option maxRecDepth 100000
set_option maxHeartbeats 10000000

namespace GodSim

-- ───────────────────────────── RNG (pcg32, RNG.h) ─────────────────────────────

/-- Word size of the pcg32 engine state. -/
def U64 : ℕ := 2 ^ 64

/-- Multiplier of the pcg32 LCG step. -/
def pcgMult : ℕ := 6364136223846793005

/-- Default increment of the pcg32 stream. -/
def pcgInc : ℕ := 1442695040888963407

/-- One LCG state advance of pcg32. -/
def pcgBump (s : ℕ) : ℕ := (s * pcgMult + pcgInc) % U64

/-- Rotate a 32-bit value right by r bits. -/
def rotr32 (x r : ℕ) : ℕ := (x >>> r) ||| ((x <<< (32 - r)) % 2 ^ 32)

/-- XSH-RR output function of pcg32: xorshift high bits, then rotate by the
    top five state bits. -/
def pcgOutput (s : ℕ) : ℕ := rotr32 ((((s >>> 18) ^^^ s) >>> 27) % 2 ^ 32) (s >>> 59)

/-- Deterministic RNG: the pcg32 engine state (RNG.h holds a pcg32 engine;
    the seed bookkeeping fields do not affect generation). -/
structure RNG where
  state : ℕ

/-- Seeding of pcg32: state starts at 0, is bumped, seed added, bumped again
    (the one-argument pcg32 constructor with the default stream). -/
def RNG.init (seed : ℕ) : RNG := ⟨pcgBump ((seed % U64 + pcgInc) % U64)⟩

/-- RNG.next_u32: output from the current state, then advance. -/
def RNG.next_u32 (r : RNG) : ℕ × RNG := (pcgOutput r.state, ⟨pcgBump r.state⟩)

/-- RNG.next_u64: two u32 draws, first one in the high bits. -/
def RNG.next_u64 (r : RNG) : ℕ × RNG :=
  let (hi, r1) := r.next_u32
  let (lo, r2) := r1.next_u32
  ((hi <<< 32) ||| lo, r2)

/-- RNG.next_float: (u32 >> 8) / 2^24, a float in [0, 1). -/
def RNG.next_float (r : RNG) : ℚ × RNG :=
  let (u, r1) := r.next_u32
  (((u >>> 8 : ℕ) : ℚ) / 16777216, r1)

/-- RNG.next_float(min, max). -/
def RNG.next_floatR (r : RNG) (lo hi : ℚ) : ℚ × RNG :=
  let (f, r1) := r.next_float
  (lo + f * (hi - lo), r1)

-- ───────────────────────── PerlinNoise (Noise.h) ─────────────────────────

/-- The 64-bit LCG driving the Fisher-Yates shuffle of the permutation table. -/
def lcg64 (s : ℕ) : ℕ := (s * 6364136223846793005 + 1442695040888963407) % U64

/-- Swap two positions of the permutation array, viewed as an index map. -/
def listSwap (l : ℕ → ℕ) (i j : ℕ) : ℕ → ℕ :=
  fun k => if k = i then l j else if k = j then l i else l k

/-- Fisher-Yates loop of the PerlinNoise constructor: i runs 255 down to 1,
    each step advances the LCG and swaps positions i and (state >> 33) % (i+1). -/
def shuffleLoop : ℕ → (ℕ → ℕ) × ℕ → (ℕ → ℕ) × ℕ
  | 0, p => p
  | i + 1, (l, st) =>
      let st' := lcg64 st
      let j := (st' >>> 33) % (i + 2)
      shuffleLoop i (listSwap l (i + 1) j, st')

/-- Permutation table of PerlinNoise as an index map: the identity 0..255
    shuffled, then duplicated for wrap-around (entry 256 + i equals entry i,
    i.e. lookup modulo 256 on the 512 indices the noise function uses). -/
def PerlinNoise.mkPerm (seed : ℕ) : ℕ → ℕ :=
  let p := (shuffleLoop 255 (fun k => k, seed % U64)).1
  fun k => p (k % 256)

/-- Smootherstep fade 6t^5 - 15t^4 + 10t^3. -/
def fade (t : ℚ) : ℚ := t * t * t * (t * (t * 6 - 15) + 10)

/-- Linear interpolation a + t(b - a). -/
def lerp (a b t : ℚ) : ℚ := a + t * (b - a)

/-- Four-direction gradient function (hash & 3 selects a diagonal). -/
def grad (h : ℕ) (x y : ℚ) : ℚ :=
  match h % 4 with
  | 0 => x + y
  | 1 => -x + y
  | 2 => x - y
  | _ => -x - y

/-- Single-octave Perlin noise at (x, y). -/
def noise (perm : ℕ → ℕ) (x y : ℚ) : ℚ :=
  let xi := (⌊x⌋ % 256).toNat
  let yi := (⌊y⌋ % 256).toNat
  let xf : ℚ := x - ⌊x⌋
  let yf : ℚ := y - ⌊y⌋
  let u := fade xf
  let v := fade yf
  let pg := perm
  let aa := pg (pg xi + yi)
  let ab := pg (pg xi + yi + 1)
  let ba := pg (pg (xi + 1) + yi)
  let bb := pg (pg (xi + 1) + yi + 1)
  let x1 := lerp (grad aa xf yf) (grad ba (xf - 1) yf) u
  let x2 := lerp (grad ab xf (yf - 1)) (grad bb (xf - 1) (yf - 1)) u
  lerp x1 x2 v

/-- Octave accumulation loop shared by fbm: returns (total, max_amplitude). -/
def fbmLoop (perm : ℕ → ℕ) (x y persistence lacunarity : ℚ) :
    ℕ → ℚ → ℚ → ℚ → ℚ → ℚ × ℚ
  | 0, _, _, total, maxAmp => (total, maxAmp)
  | n + 1, freq, amp, total, maxAmp =>
      fbmLoop perm x y persistence lacunarity n (freq * lacunarity) (amp * persistence)
        (total + noise perm (x * freq) (y * freq) * amp) (maxAmp + amp)

/-- Fractal Brownian motion: octave sum normalised by total amplitude. -/
def fbm (perm : ℕ → ℕ) (x y : ℚ) (octaves : ℕ) (frequency persistence lacunarity : ℚ) : ℚ :=
  let (total, maxAmp) := fbmLoop perm x y persistence lacunarity octaves frequency 1 0 0
  total / maxAmp

/-- Octave accumulation loop of ridged noise: each octave adds (1 - |noise|)^2. -/
def ridgedLoop (perm : ℕ → ℕ) (x y persistence lacunarity : ℚ) :
    ℕ → ℚ → ℚ → ℚ → ℚ → ℚ × ℚ
  | 0, _, _, total, maxAmp => (total, maxAmp)
  | n + 1, freq, amp, total, maxAmp =>
      let n0 := 1 - |noise perm (x * freq) (y * freq)|
      ridgedLoop perm x y persistence lacunarity n (freq * lacunarity) (amp * persistence)
        (total + n0 * n0 * amp) (maxAmp + amp)

/-- Ridged noise: sharpened octave sum normalised by total amplitude. -/
def ridged (perm : ℕ → ℕ) (x y : ℚ) (octaves : ℕ) (frequency persistence lacunarity : ℚ) : ℚ :=
  let (total, maxAmp) := ridgedLoop perm x y persistence lacunarity octaves frequency 1 0 0
  total / maxAmp

-- ───────────────────────── Heightmap (Heightmap.h) ─────────────────────────

/-- std::clamp(v, lo, hi). -/
def qclamp (v lo hi : ℚ) : ℚ := if v < lo then lo else if hi < v then hi else v

/-- std::clamp on integers (used by blur index clamping). -/
def iclamp (v lo hi : ℤ) : ℤ := if v < lo then lo else if hi < v then hi else v

/-- Minimum of a list as computed by std::min_element (0 on the empty list,
    where the C++ is undefined). -/
def listMin : List ℚ → ℚ
  | [] => 0
  | x :: xs => xs.foldl min x

/-- Maximum of a list as computed by std::max_element. -/
def listMax : List ℚ → ℚ
  | [] => 0
  | x :: xs => xs.foldl max x

/-- A 2D grid of floats, row-major: index = y * width + x. -/
structure Heightmap where
  width : ℕ
  height : ℕ
  data : List ℚ

/-- Heightmap(width, height, fill). -/
def Heightmap.ofFill (w h : ℕ) (fill : ℚ) : Heightmap := ⟨w, h, List.replicate (w * h) fill⟩

/-- Heightmap::get. -/
def Heightmap.get (g : Heightmap) (x y : ℕ) : ℚ := g.data.getD (y * g.width + x) 0

/-- Heightmap::set. -/
def Heightmap.set (g : Heightmap) (x y : ℕ) (v : ℚ) : Heightmap :=
  ⟨g.width, g.height, g.data.set (y * g.width + x) v⟩

/-- Heightmap::sample: bilinear interpolation, coordinates clamped to the grid. -/
def Heightmap.sample (g : Heightmap) (fx0 fy0 : ℚ) : ℚ :=
  let fx := qclamp fx0 0 ((g.width - 1 : ℕ) : ℚ)
  let fy := qclamp fy0 0 ((g.height - 1 : ℕ) : ℚ)
  let x0 := (⌊fx⌋).toNat
  let y0 := (⌊fy⌋).toNat
  let x1 := min (x0 + 1) (g.width - 1)
  let y1 := min (y0 + 1) (g.height - 1)
  let tx := fx - (x0 : ℚ)
  let ty := fy - (y0 : ℚ)
  let a := g.get x0 y0 * (1 - tx) + g.get x1 y0 * tx
  let b := g.get x0 y1 * (1 - tx) + g.get x1 y1 * tx
  a * (1 - ty) + b * ty

/-- Heightmap::normalise: min-max stretch to [0,1], a no-op when the range is
    below the 1e-8 guard. -/
def Heightmap.normalise (g : Heightmap) : Heightmap :=
  let lo := listMin g.data
  let hi := listMax g.data
  if hi - lo < 1 / 100000000 then g
  else ⟨g.width, g.height, g.data.map (fun v => (v - lo) / (hi - lo))⟩

/-- Row-major cell list of a w x h grid built from a per-cell function; used to
    embed per-cell loops whose iterations each write only their own cell. -/
def mapCells (w h : ℕ) (f : ℕ → ℕ → ℚ) : List ℚ :=
  (List.range (w * h)).map (fun i => f (i % w) (i / w))

/-- Box sum of the (2r+1)^2 neighbourhood with border-clamped sampling. -/
def Heightmap.blurAt (g : Heightmap) (radius x y : ℕ) : ℚ :=
  (List.range (2 * radius + 1)).foldl (fun acc dy =>
    (List.range (2 * radius + 1)).foldl (fun acc2 dx =>
      let sx := (iclamp ((x : ℤ) + dx - radius) 0 ((g.width - 1 : ℕ) : ℤ)).toNat
      let sy := (iclamp ((y : ℤ) + dy - radius) 0 ((g.height - 1 : ℕ) : ℤ)).toNat
      acc2 + g.get sx sy) acc) 0

/-- Heightmap::blur: box filter via a temporary copy, each output cell is the
    clamped box sum times 1/(diam^2). -/
def Heightmap.blur (g : Heightmap) (radius : ℕ) : Heightmap :=
  let diam := 2 * radius + 1
  ⟨g.width, g.height,
    mapCells g.width g.height (fun x y => g.blurAt radius x y * (1 / ((diam * diam : ℕ) : ℚ)))⟩

-- ───────────────────── TerrainGenerator (TerrainGenerator.h) ─────────────────────

/-- Configuration for terrain generation. Octave and iteration counts are
    naturals (a non-positive int count makes the C++ loops run zero times). -/
structure TerrainConfig where
  width : ℕ := 512
  height : ℕ := 512
  sea_level : ℚ := 2 / 5
  num_plates : ℕ := 8
  fbm_octaves : ℕ := 7
  mountain_scale : ℚ := 3 / 10
  erosion_iterations : ℕ := 50

/-- One tectonic plate: centre, drift vector (drawn but unused downstream),
    and the oceanic flag. -/
structure PlateInfo where
  center_x : ℚ
  center_y : ℚ
  drift_x : ℚ
  drift_y : ℚ
  is_oceanic : Bool

/-- Draw loop of generate_plates: five RNG draws per plate, in plate order. -/
def drawPlates (cfg : TerrainConfig) : ℕ → RNG → List PlateInfo × RNG
  | 0, r => ([], r)
  | n + 1, r =>
      let (cx, r1) := r.next_floatR 0 (cfg.width : ℚ)
      let (cy, r2) := r1.next_floatR 0 (cfg.height : ℚ)
      let (dx, r3) := r2.next_floatR (-1) 1
      let (dy, r4) := r3.next_floatR (-1) 1
      let (oc, r5) := r4.next_float
      let (rest, r6) := drawPlates cfg n r5
      (⟨cx, cy, dx, dy, decide (oc < 9 / 20)⟩ :: rest, r6)

/-- Nearest plate centre under the toroidal-X squared distance, scanning the
    plates in order and keeping the first strict minimum (initial 1e18). -/
def nearestPlate (cfg : TerrainConfig) (plates : List PlateInfo) (x y : ℕ) : ℕ :=
  ((plates.zip (List.range plates.length)).foldl (fun (acc : ℚ × ℕ) pi =>
      let dx0 := (x : ℚ) - pi.1.center_x
      let dy := (y : ℚ) - pi.1.center_y
      let dx1 := if dx0 > (cfg.width : ℚ) * (1 / 2) then dx0 - (cfg.width : ℚ) else dx0
      let dx := if dx1 < -((cfg.width : ℚ) * (1 / 2)) then dx1 + (cfg.width : ℚ) else dx1
      let d := dx * dx + dy * dy
      if d < acc.1 then (d, pi.2) else acc) (1000000000000000000, 0)).2

/-- generate_plates: random plate table, then the Voronoi assignment map. -/
def generate_plates (cfg : TerrainConfig) (r : RNG) : (List PlateInfo × List ℕ) × RNG :=
  let (plates, r1) := drawPlates cfg cfg.num_plates r
  let plate_map := (List.range (cfg.width * cfg.height)).map (fun i =>
    nearestPlate cfg plates (i % cfg.width) (i / cfg.width))
  ((plates, plate_map), r1)

/-- plates_to_elevation: 0.25 on oceanic plates, 0.55 on continental ones. -/
def plates_to_elevation (plates : List PlateInfo) (plate_map : List ℕ) (cfg : TerrainConfig) :
    Heightmap :=
  ⟨cfg.width, cfg.height, plate_map.map (fun p =>
    if (plates.getD p ⟨0, 0, 0, 0, false⟩).is_oceanic then 1 / 4 else 11 / 20)⟩

/-- Per-cell body of apply_continental_noise: low-frequency continental fbm
    scaled by 0.35 plus higher-frequency detail fbm scaled by 0.08. -/
def continentalAt (permC permD : ℕ → ℕ) (cfg : TerrainConfig) (x y : ℕ) (cur : ℚ) : ℚ :=
  let nx : ℚ := (x : ℚ) / (cfg.width : ℚ)
  let ny : ℚ := (y : ℚ) / (cfg.height : ℚ)
  let continent_noise := fbm permC (nx * 4) (ny * 4) cfg.fbm_octaves 1 (11 / 20) 2
  let detail_noise := fbm permD (nx * 12) (ny * 12) 4 1 (1 / 2) 2
  cur + continent_noise * (7 / 20) + detail_noise * (2 / 25)

/-- apply_continental_noise: two noise-seed draws, then a per-cell add. -/
def apply_continental_noise (elev : Heightmap) (cfg : TerrainConfig) (r : RNG) :
    Heightmap × RNG :=
  let (s1, r1) := r.next_u64
  let (s2, r2) := r1.next_u64
  let permC := PerlinNoise.mkPerm s1
  let permD := PerlinNoise.mkPerm s2
  (⟨cfg.width, cfg.height,
    mapCells cfg.width cfg.height (fun x y => continentalAt permC permD cfg x y (elev.get x y))⟩,
   r2)

/-- Ridged-noise sample of stage 3 at a cell. -/
def ridgedAt (perm : ℕ → ℕ) (cfg : TerrainConfig) (x y : ℕ) : ℚ :=
  let nx : ℚ := (x : ℚ) / (cfg.width : ℚ)
  let ny : ℚ := (y : ℚ) / (cfg.height : ℚ)
  ridged perm (nx * 8) (ny * 8) 5 1 (3 / 5) 2

/-- Plate-boundary test of stage 3: any of the four neighbour entries of the
    plate map differs from the centre (evaluated only at interior cells, where
    the natural subtractions match the C++ index arithmetic). -/
def isBoundary (plate_map : List ℕ) (w : ℕ) (x y : ℕ) : Bool :=
  let center := plate_map.getD (y * w + x) 0
  decide (plate_map.getD (y * w + (x - 1)) 0 ≠ center) ||
  decide (plate_map.getD (y * w + (x + 1)) 0 ≠ center) ||
  decide (plate_map.getD ((y - 1) * w + x) 0 ≠ center) ||
  decide (plate_map.getD ((y + 1) * w + x) 0 ≠ center)

/-- Interior cells (1..w-2) x (1..h-2) in loop order: y outer, x inner. -/
def interiorCells (w h : ℕ) : List (ℕ × ℕ) :=
  (List.range ((h - 2) * (w - 2))).map (fun i => (i % (w - 2) + 1, i / (w - 2) + 1))

/-- Stage-3 loop before the final blur: at interior boundary cells add ridged
    noise scaled by mountain_scale, sequentially over the interior cells. -/
def ridgePass (elev : Heightmap) (plate_map : List ℕ) (cfg : TerrainConfig) (perm : ℕ → ℕ) :
    Heightmap :=
  (interiorCells cfg.width cfg.height).foldl (fun g c =>
    if isBoundary plate_map cfg.width c.1 c.2 then
      g.set c.1 c.2 (g.get c.1 c.2 + ridgedAt perm cfg c.1 c.2 * cfg.mountain_scale)
    else g) elev

/-- apply_mountain_ridges: one noise-seed draw, the ridge pass, then blur 2. -/
def apply_mountain_ridges (elev : Heightmap) (plate_map : List ℕ) (cfg : TerrainConfig)
    (r : RNG) : Heightmap × RNG :=
  let (s, r1) := r.next_u64
  ((ridgePass elev plate_map cfg (PerlinNoise.mkPerm s)).blur 2, r1)

/-- Droplet state of the erosion simulation. -/
structure DropState where
  px : ℚ
  py : ℚ
  sediment : ℚ
  speed : ℚ
  water : ℚ
  dir_x : ℚ
  dir_y : ℚ

/-- static_cast<u32> of a nonnegative float truncates toward zero; a negative
    argument (undefined in C++) is modelled as 0, which the interior guard
    rejects either way. -/
def toU32floor (q : ℚ) : ℕ := (⌊q⌋).toNat

/-- Sediment exchange of one droplet step at the integer cell (ix, iy):
    deposit when moving uphill, else deposit the excess over capacity or erode.
    Returns the updated grid and sediment. -/
def depositOrErode (g : Heightmap) (ix iy : ℕ) (sediment speed water h_diff : ℚ) :
    Heightmap × ℚ :=
  if h_diff > 0 then
    let to_deposit := min sediment h_diff
    (g.set ix iy (g.get ix iy + to_deposit), sediment - to_deposit)
  else
    let capacity := max (-h_diff) (1 / 100) * speed * water * 8
    if sediment > capacity then
      let to_deposit := (sediment - capacity) * (3 / 10)
      (g.set ix iy (g.get ix iy + to_deposit), sediment - to_deposit)
    else
      let to_erode := min ((capacity - sediment) * (3 / 10)) (-h_diff)
      (g.set ix iy (g.get ix iy - to_erode), sediment + to_erode)

/-- One droplet lifetime of apply_erosion (up to 50 steps); sqrtf stands for
    std::sqrt. Each write goes to the integer cell under the droplet, which
    the guards keep strictly inside the border. -/
def dropletLoop (cfg : TerrainConfig) (sqrtf : ℚ → ℚ) : ℕ → DropState → Heightmap → Heightmap
  | 0, _, g => g
  | step + 1, st, g =>
      let w := cfg.width
      let h := cfg.height
      let ix := toU32floor st.px
      let iy := toU32floor st.py
      if ix < 1 ∨ w - 1 ≤ ix ∨ iy < 1 ∨ h - 1 ≤ iy then g
      else
        let h_l := g.get (ix - 1) iy
        let h_r := g.get (ix + 1) iy
        let h_u := g.get ix (iy - 1)
        let h_d := g.get ix (iy + 1)
        let gx := (h_r - h_l) * (1 / 2)
        let gy := (h_d - h_u) * (1 / 2)
        let inertia : ℚ := 3 / 10
        let dx0 := st.dir_x * inertia - gx * (1 - inertia)
        let dy0 := st.dir_y * inertia - gy * (1 - inertia)
        let len := sqrtf (dx0 * dx0 + dy0 * dy0)
        if len < 1 / 1000000 then g
        else
          let dx := dx0 / len
          let dy := dy0 / len
          let npx := st.px + dx
          let npy := st.py + dy
          let nix := toU32floor npx
          let niy := toU32floor npy
          if nix < 1 ∨ w - 1 ≤ nix ∨ niy < 1 ∨ h - 1 ≤ niy then g
          else
            let old_h := g.sample st.px st.py
            let new_h := g.sample npx npy
            let h_diff := new_h - old_h
            let gs := depositOrErode g ix iy st.sediment st.speed st.water h_diff
            let speed' := sqrtf (max (st.speed * st.speed + h_diff * 4) 0)
            let water' := st.water * (1 - 1 / 100)
            dropletLoop cfg sqrtf step ⟨npx, npy, gs.2, speed', water', dx, dy⟩ gs.1

/-- One erosion iteration: droplet start position drawn from the RNG, then the
    droplet lifetime. -/
def erosionIter (cfg : TerrainConfig) (sqrtf : ℚ → ℚ) (g : Heightmap) (r : RNG) :
    Heightmap × RNG :=
  let (px, r1) := r.next_floatR 1 ((cfg.width - 2 : ℕ) : ℚ)
  let (py, r2) := r1.next_floatR 1 ((cfg.height - 2 : ℕ) : ℚ)
  (dropletLoop cfg sqrtf 50 ⟨px, py, 0, 0, 1, 0, 0⟩ g, r2)

/-- apply_erosion: erosion_iterations sequential droplets on the shared grid. -/
def apply_erosion (elev : Heightmap) (cfg : TerrainConfig) (r : RNG) (sqrtf : ℚ → ℚ) :
    Heightmap × RNG :=
  (List.range cfg.erosion_iterations).foldl (fun (p : Heightmap × RNG) _ =>
    erosionIter cfg sqrtf p.1 p.2) (elev, r)

-- ───────────────────── Stage 5: sea-level remap ─────────────────────

/-- Grid of Option-valued cells: a none cell is an IEEE NaN produced by a
    zero-divisor float division. -/
structure OHeightmap where
  width : ℕ
  height : ℕ
  data : List (Option ℚ)

/-- Float division; none when the divisor is zero (0/0 is NaN in f32). -/
def qdiv (a b : ℚ) : Option ℚ := if b = 0 then none else some (a / b)

/-- The sea-level threshold of stage 5: sort the cells, pick the value at rank
    floor(sea_level * N), clamped to the last index. -/
def seaThreshold (data : List ℚ) (sea : ℚ) : ℚ :=
  let sorted := data.insertionSort (· ≤ ·)
  let sea_idx := (⌊sea * (data.length : ℚ)⌋).toNat
  sorted.getD (min sea_idx (data.length - 1)) 0

/-- Piecewise-linear remap of one cell: values up to the threshold compress
    into [0, sea], the rest into [sea, 1]. -/
def remapCell (sea t : ℚ) (e : ℚ) : Option ℚ :=
  if e ≤ t then (qdiv e t).map (fun q => q * sea)
  else (qdiv (e - t) (1 - t)).map (fun q => sea + q * (1 - sea))

/-- The whole stage-5 remap of a (normalised) grid. -/
def seaLevelRemap (g : Heightmap) (sea : ℚ) : OHeightmap :=
  let t := seaThreshold g.data sea
  ⟨g.width, g.height, g.data.map (remapCell sea t)⟩

/-- Stages 1 to 4 of TerrainGenerator::generate. -/
def stages14 (cfg : TerrainConfig) (r : RNG) (sqrtf : ℚ → ℚ) : Heightmap × RNG :=
  let pr := generate_plates cfg r
  let elev1 := plates_to_elevation pr.1.1 pr.1.2 cfg
  let cr := apply_continental_noise elev1 cfg pr.2
  let mr := apply_mountain_ridges cr.1 pr.1.2 cfg cr.2
  apply_erosion mr.1 cfg mr.2 sqrtf

/-- Stages 1 to 4 followed by the stage-5 normalisation (the grid the sorting
    and remapping of stage 5 then consume). -/
def preRemap (cfg : TerrainConfig) (r : RNG) (sqrtf : ℚ → ℚ) : Heightmap × RNG :=
  let er := stages14 cfg r sqrtf
  (er.1.normalise, er.2)

/-- TerrainGenerator::generate: the full five-stage pipeline. -/
def generate (cfg : TerrainConfig) (r : RNG) (sqrtf : ℚ → ℚ) : OHeightmap × RNG :=
  let pr := preRemap cfg r sqrtf
  (seaLevelRemap pr.1 cfg.sea_level, pr.2)

-- ───────────────────── ClimateGenerator (ClimateGenerator.h) ─────────────────────

/-- Configuration for climate generation. -/
structure ClimateConfig where
  sea_level : ℚ := 2 / 5
  axial_tilt : ℚ := 47 / 2
  base_temp : ℚ := 15
  temp_range : ℚ := 70
  altitude_lapse : ℚ := 40
  ocean_moisture : ℚ := 9 / 10

/-- Per-cell body of generate_temperature: quadratic latitude falloff, altitude
    cooling on land, ocean moderation, plus a small fbm variation. -/
def temperatureAt (perm : ℕ → ℕ) (cfg : ClimateConfig) (w h : ℕ) (elev : Heightmap)
    (x y : ℕ) : ℚ :=
  let latitude := |2 * (y : ℚ) / (h : ℚ) - 1|
  let lat_temp := cfg.base_temp - cfg.temp_range * (1 / 2) * (latitude * latitude)
  let e := elev.get x y
  let t1 := if e > cfg.sea_level then
      lat_temp - ((e - cfg.sea_level) / (1 - cfg.sea_level)) * cfg.altitude_lapse
    else lat_temp
  let t2 := if e < cfg.sea_level then t1 * (7 / 10) + cfg.base_temp * (3 / 10) else t1
  let variation := fbm perm ((x : ℚ) / (w : ℚ) * 6) ((y : ℚ) / (h : ℚ) * 6) 3 1 (1 / 2) 2 * 5
  t2 + variation

/-- ClimateGenerator::generate_temperature. -/
def generate_temperature (elev : Heightmap) (cfg : ClimateConfig) (r : RNG) :
    Heightmap × RNG :=
  let (s, r1) := r.next_u64
  let perm := PerlinNoise.mkPerm s
  (⟨elev.width, elev.height,
    mapCells elev.width elev.height (temperatureAt perm cfg elev.width elev.height elev)⟩, r1)

/-- Row-major list of all grid cells. -/
def gridCells (w h : ℕ) : List (ℕ × ℕ) :=
  (List.range (w * h)).map (fun i => (i % w, i / w))

/-- Ocean seed cells of the BFS, in the row-major scan order of the seeding
    loop: every cell with elevation below sea level. -/
def oceanCellsList (elev : Heightmap) (sea : ℚ) : List (ℕ × ℕ) :=
  (gridCells elev.width elev.height).filter (fun c => decide (elev.get c.1 c.2 < sea))

/-- Initial distance grid: 0 at ocean cells, -1 (unvisited) elsewhere. -/
def seedDist (elev : Heightmap) (sea : ℚ) : Heightmap :=
  ⟨elev.width, elev.height,
    mapCells elev.width elev.height (fun x y => if elev.get x y < sea then 0 else -1)⟩

/-- In-bounds 4-neighbours of a cell in the dx = {-1,1,0,0}, dy = {0,0,-1,1}
    order of the BFS. -/
def neighbours (w h : ℕ) (c : ℕ × ℕ) : List (ℕ × ℕ) :=
  ([(-1, 0), (1, 0), (0, -1), (0, 1)] : List (ℤ × ℤ)).filterMap (fun d =>
    let nx := (c.1 : ℤ) + d.1
    let ny := (c.2 : ℤ) + d.2
    if 0 ≤ nx ∧ nx < (w : ℤ) ∧ 0 ≤ ny ∧ ny < (h : ℤ) then some (nx.toNat, ny.toNat) else none)

/-- The neighbour scan of one BFS dequeue: unvisited neighbours get distance
    cd + 1 and are appended to the queue. -/
def pushNbrs (w h : ℕ) (cd : ℚ) (c : ℕ × ℕ) (q : List (ℕ × ℕ)) (dist : Heightmap) :
    List (ℕ × ℕ) × Heightmap :=
  (neighbours w h c).foldl (fun p n =>
    if p.2.get n.1 n.2 < 0 then (p.1 ++ [n], p.2.set n.1 n.2 (cd + 1)) else p) (q, dist)

/-- The BFS dequeue loop; the fuel bound w*h dominates the number of dequeues
    because every cell is enqueued at most once. -/
def bfsLoop (w h : ℕ) : ℕ → List (ℕ × ℕ) → Heightmap → Heightmap
  | 0, _, dist => dist
  | _ + 1, [], dist => dist
  | fuel + 1, c :: q, dist =>
      let cd := dist.get c.1 c.2
      let p := pushNbrs w h cd c q dist
      bfsLoop w h fuel p.1 p.2

/-- ClimateGenerator::compute_ocean_distance: multi-source BFS flood fill from
    all cells below sea level. -/
def compute_ocean_distance (elev : Heightmap) (cfg : ClimateConfig) : Heightmap :=
  bfsLoop elev.width elev.height (elev.width * elev.height)
    (oceanCellsList elev cfg.sea_level) (seedDist elev cfg.sea_level)

/-- Land-cell body of generate_moisture, with the ocean-proximity factor made
    explicit; expf stands for std::exp. -/
def moistureLand (perm : ℕ → ℕ) (cfg : ClimateConfig) (w h x y : ℕ) (e ocean_factor : ℚ)
    (expf : ℚ → ℚ) : ℚ :=
  let latitude := |2 * (y : ℚ) / (h : ℚ) - 1|
  let tropical_moisture := expf (-(latitude * latitude) * 8) * (3 / 10)
  let temperate_moisture := expf (-((latitude - 1 / 2) * (latitude - 1 / 2)) * 20) * (3 / 20)
  let land_height := (e - cfg.sea_level) / (1 - cfg.sea_level)
  let altitude_factor := 1 - land_height * (1 / 2)
  let m0 := ocean_factor * (1 / 2) + tropical_moisture + temperate_moisture
  let m1 := m0 * altitude_factor
  let variation := fbm perm ((x : ℚ) / (w : ℚ) * 5) ((y : ℚ) / (h : ℚ) * 5) 3 1 (1 / 2) 2 * (3 / 20)
  qclamp (m1 + variation) 0 1

/-- Per-cell body of generate_moisture: ocean cells get the ocean_moisture
    constant, land cells the combined land formula; sqrtf and powf stand for
    std::sqrt and std::pow(., 0.4f). -/
def moistureAt (perm : ℕ → ℕ) (cfg : ClimateConfig) (w h : ℕ) (elev ocean_dist : Heightmap)
    (sqrtf powf expf : ℚ → ℚ) (x y : ℕ) : ℚ :=
  let e := elev.get x y
  if e < cfg.sea_level then cfg.ocean_moisture
  else
    let dist := ocean_dist.get x y
    let max_dist := sqrtf ((w * w + h * h : ℕ) : ℚ) * (1 / 2)
    let ocean_factor := powf (1 - qclamp (dist / max_dist) 0 1)
    moistureLand perm cfg w h x y e ocean_factor expf

/-- ClimateGenerator::generate_moisture (the temperature argument is accepted
    but never read, as in the source). -/
def generate_moisture (elev temperature : Heightmap) (cfg : ClimateConfig) (r : RNG)
    (sqrtf powf expf : ℚ → ℚ) : Heightmap × RNG :=
  let ocean_dist := compute_ocean_distance elev cfg
  let (s, r1) := r.next_u64
  let perm := PerlinNoise.mkPerm s
  (⟨elev.width, elev.height,
    mapCells elev.width elev.height
      (moistureAt perm cfg elev.width elev.height elev ocean_dist sqrtf powf expf)⟩, r1)

-- ───────────────────────── Biome (Biome.h) ─────────────────────────

/-- Biome types of the Whittaker-style classifier. -/
inductive BiomeType
  | Ocean
  | DeepOcean
  | Ice
  | Tundra
  | BorealForest
  | TemperateGrassland
  | TemperateForest
  | TemperateRainforest
  | Shrubland
  | Desert
  | Savanna
  | TropicalForest
  | TropicalRainforest
  | Wetland
  | Mountain
  | Beach

deriving instance DecidableEq for BiomeType

/-- classify_biome: ordered rule evaluation over elevation, temperature,
    moisture and sea level. -/
def classify_biome (elevation temperature moisture : ℚ) (sea_level : ℚ := 2 / 5) : BiomeType :=
  if elevation < sea_level - 1 / 20 then .DeepOcean
  else if elevation < sea_level then .Ocean
  else
    let land_height := (elevation - sea_level) / (1 - sea_level)
    if land_height < 1 / 50 then .Beach
    else if land_height > 7 / 10 then .Mountain
    else if temperature < -10 then .Ice
    else if temperature < 0 then .Tundra
    else if temperature < 10 then
      if moisture > 1 / 2 then .BorealForest else .Tundra
    else if temperature < 20 then
      if moisture > 7 / 10 then .TemperateRainforest
      else if moisture > 2 / 5 then .TemperateForest
      else if moisture > 1 / 5 then .Shrubland
      else .TemperateGrassland
    else if temperature < 30 then
      if moisture > 13 / 20 then .TropicalRainforest
      else if moisture > 7 / 20 then .TropicalForest
      else if moisture > 3 / 20 then .Savanna
      else .Desert
    else
      if moisture > 3 / 5 then .TropicalRainforest
      else if moisture > 3 / 10 then .Savanna
      else .Desert

-- ─────────────── Serialisation (Heightmap.h + BinaryStream.h) ───────────────

/-- Little-endian bytes of a u32 value, as written to the BinaryWriter buffer. -/
def bytesOfU32 (v : ℕ) : List ℕ :=
  [v % 256, v / 256 % 256, v / 65536 % 256, v / 16777216 % 256]

/-- Reassemble a u32 from four little-endian bytes. -/
def u32OfBytes (b0 b1 b2 b3 : ℕ) : ℕ := b0 + 256 * b1 + 65536 * b2 + 16777216 * b3

/-- A Heightmap at the byte level: cell values are raw f32 bit patterns
    (the (de)serialisation round-trip is bit-for-bit and value-agnostic). -/
structure HeightmapBits where
  width : ℕ
  height : ℕ
  data : List ℕ

/-- Heightmap::serialise: u32 width, u32 height, then the raw float bytes
    (little-endian per cell, in order). -/
def HeightmapBits.serialise (g : HeightmapBits) : List ℕ :=
  bytesOfU32 g.width ++ bytesOfU32 g.height ++ g.data.flatMap bytesOfU32

/-- BinaryReader::read_u32: consume four bytes, none past the end of buffer
    (where the C++ reader throws). -/
def readU32 : List ℕ → Option (ℕ × List ℕ)
  | b0 :: b1 :: b2 :: b3 :: rest => some (u32OfBytes b0 b1 b2 b3, rest)
  | _ => none

/-- Consume n raw f32 values (4 bytes each). -/
def readF32s : ℕ → List ℕ → Option (List ℕ × List ℕ)
  | 0, rest => some ([], rest)
  | n + 1, bytes =>
      match readU32 bytes with
      | none => none
      | some (v, r1) =>
          match readF32s n r1 with
          | none => none
          | some (vs, r2) => some (v :: vs, r2)

/-- Heightmap::deserialise: read width and height, resize to width*height
    (u32 product, as the C++ computes it), then read the raw floats. -/
def HeightmapBits.deserialise (bytes : List ℕ) : Option HeightmapBits :=
  match readU32 bytes with
  | none => none
  | some (w, r1) =>
      match readU32 r1 with
      | none => none
      | some (h, r2) =>
          match readF32s (w * h % 2 ^ 32) r2 with
          | none => none
          | some (vals, _) => some ⟨w, h, vals⟩

-- ───────────────────────── Basic grid lemmas ─────────────────────────

theorem cellIdx_inj {w x1 x2 y1 y2 : ℕ} (h1 : x1 < w) (h2 : x2 < w)
    (h : y1 * w + x1 = y2 * w + x2) : x1 = x2 ∧ y1 = y2 := by
  have hw : 0 < w := by omega
  have e1 : (x1 + w * y1) % w = x1 % w := Nat.add_mul_mod_self_left x1 w y1
  have e2 : (x2 + w * y2) % w = x2 % w := Nat.add_mul_mod_self_left x2 w y2
  have hh : x1 + w * y1 = x2 + w * y2 := by
    calc x1 + w * y1 = y1 * w + x1 := by ring
    _ = y2 * w + x2 := h
    _ = x2 + w * y2 := by ring
  have hx : x1 = x2 := by
    rw [hh] at e1
    rw [Nat.mod_eq_of_lt h1] at e1
    rw [Nat.mod_eq_of_lt h2] at e2
    omega
  subst hx
  have hy : y1 * w = y2 * w := by omega
  exact ⟨rfl, Nat.eq_of_mul_eq_mul_right hw hy⟩

theorem Heightmap.get_set_ne (g : Heightmap) {x1 y1 x2 y2 : ℕ} (v : ℚ)
    (h1 : x1 < g.width) (h2 : x2 < g.width) (hne : (x1, y1) ≠ (x2, y2)) :
    (g.set x1 y1 v).get x2 y2 = g.get x2 y2 := by
  have hidx : y1 * g.width + x1 ≠ y2 * g.width + x2 := by
    intro hc
    obtain ⟨hx, hy⟩ := cellIdx_inj h1 h2 hc
    exact hne (by simp [hx, hy])
  simp [Heightmap.get, Heightmap.set, List.getD_eq_getElem?_getD, List.getElem?_set_ne hidx]

theorem Heightmap.get_set_self (g : Heightmap) {x y : ℕ} (v : ℚ)
    (hlt : y * g.width + x < g.data.length) :
    (g.set x y v).get x y = v := by
  simp [Heightmap.get, Heightmap.set, List.getD_eq_getElem?_getD,
    List.getElem?_set_self hlt]

theorem Heightmap.set_width (g : Heightmap) (x y : ℕ) (v : ℚ) :
    (g.set x y v).width = g.width := rfl

theorem Heightmap.set_length (g : Heightmap) (x y : ℕ) (v : ℚ) :
    (g.set x y v).data.length = g.data.length := by
  simp [Heightmap.set]

theorem get_mapCells (w h : ℕ) (f : ℕ → ℕ → ℚ) {x y : ℕ} (hx : x < w) (hy : y < h) :
    (Heightmap.mk w h (mapCells w h f)).get x y = f x y := by
  have hidx : y * w + x < w * h := by
    calc y * w + x < y * w + w := by omega
    _ = (y + 1) * w := by ring
    _ ≤ h * w := Nat.mul_le_mul_right w (by omega)
    _ = w * h := Nat.mul_comm h w
  have hmod : (y * w + x) % w = x := by
    have : y * w + x = x + w * y := by ring
    rw [this, Nat.add_mul_mod_self_left, Nat.mod_eq_of_lt hx]
  have hdivq : (y * w + x) / w = y := by
    have : y * w + x = x + w * y := by ring
    rw [this, Nat.add_mul_div_left _ _ (by omega : 0 < w), Nat.div_eq_of_lt hx]
    omega
  have hlen : (mapCells w h f).length = w * h := by simp [mapCells]
  have hlen2 : y * w + x < (mapCells w h f).length := by rw [hlen]; exact hidx
  simp only [Heightmap.get]
  rw [List.getD_eq_getElem (mapCells w h f) 0 hlen2]
  simp only [mapCells]
  rw [List.getElem_map, List.getElem_range, hmod, hdivq]

theorem mapCells_length (w h : ℕ) (f : ℕ → ℕ → ℚ) : (mapCells w h f).length = w * h := by
  simp [mapCells]

-- ───────────────────── List min and max lemmas ─────────────────────

theorem foldl_min_le_start (xs : List ℚ) (x : ℚ) : xs.foldl min x ≤ x := by
  induction xs generalizing x with
  | nil => exact le_refl x
  | cons a tl ih => exact le_trans (ih (min x a)) (min_le_left x a)

theorem foldl_min_le_mem (xs : List ℚ) (x : ℚ) {a : ℚ} (ha : a ∈ xs) : xs.foldl min x ≤ a := by
  induction xs generalizing x with
  | nil => cases ha
  | cons b tl ih =>
      rcases List.mem_cons.mp ha with h | h
      · subst h
        exact le_trans (foldl_min_le_start tl (min x a)) (min_le_right x a)
      · exact ih (min x b) h

theorem listMin_le_mem {l : List ℚ} {a : ℚ} (ha : a ∈ l) : listMin l ≤ a := by
  cases l with
  | nil => cases ha
  | cons x xs =>
      rcases List.mem_cons.mp ha with h | h
      · subst h
        exact foldl_min_le_start xs a
      · exact foldl_min_le_mem xs x h

theorem foldl_max_ge_start (xs : List ℚ) (x : ℚ) : x ≤ xs.foldl max x := by
  induction xs generalizing x with
  | nil => exact le_refl x
  | cons a tl ih => exact le_trans (le_max_left x a) (ih (max x a))

theorem foldl_max_ge_mem (xs : List ℚ) (x : ℚ) {a : ℚ} (ha : a ∈ xs) : a ≤ xs.foldl max x := by
  induction xs generalizing x with
  | nil => cases ha
  | cons b tl ih =>
      rcases List.mem_cons.mp ha with h | h
      · subst h
        exact le_trans (le_max_right x a) (foldl_max_ge_start tl (max x a))
      · exact ih (max x b) h

theorem mem_le_listMax {l : List ℚ} {a : ℚ} (ha : a ∈ l) : a ≤ listMax l := by
  cases l with
  | nil => cases ha
  | cons x xs =>
      rcases List.mem_cons.mp ha with h | h
      · subst h
        exact foldl_max_ge_start xs a
      · exact foldl_max_ge_mem xs x h

theorem foldl_min_map_affine (xs : List ℚ) (x lo c : ℚ) (hc : 0 < c) :
    (xs.map (fun v => (v - lo) / c)).foldl min ((x - lo) / c) = (xs.foldl min x - lo) / c := by
  induction xs generalizing x with
  | nil => rfl
  | cons a tl ih =>
      simp only [List.map_cons, List.foldl_cons]
      rw [min_div_div_right hc.le, min_sub_sub_right, ih]

theorem foldl_max_map_affine (xs : List ℚ) (x lo c : ℚ) (hc : 0 < c) :
    (xs.map (fun v => (v - lo) / c)).foldl max ((x - lo) / c) = (xs.foldl max x - lo) / c := by
  induction xs generalizing x with
  | nil => rfl
  | cons a tl ih =>
      simp only [List.map_cons, List.foldl_cons]
      rw [max_div_div_right hc.le, max_sub_sub_right, ih]

theorem listMin_map_affine (l : List ℚ) (lo c : ℚ) (hc : 0 < c) (hne : l ≠ []) :
    listMin (l.map (fun v => (v - lo) / c)) = (listMin l - lo) / c := by
  cases l with
  | nil => exact absurd rfl hne
  | cons x xs =>
      simp only [List.map_cons, listMin]
      exact foldl_min_map_affine xs x lo c hc

theorem listMax_map_affine (l : List ℚ) (lo c : ℚ) (hc : 0 < c) (hne : l ≠ []) :
    listMax (l.map (fun v => (v - lo) / c)) = (listMax l - lo) / c := by
  cases l with
  | nil => exact absurd rfl hne
  | cons x xs =>
      simp only [List.map_cons, listMax]
      exact foldl_max_map_affine xs x lo c hc

-- ───────────────────── Normalise lemmas ─────────────────────

theorem normalise_of_small (g : Heightmap)
    (h : listMax g.data - listMin g.data < 1 / 100000000) : g.normalise = g := by
  simp only [Heightmap.normalise]
  rw [if_pos h]

theorem normalise_of_large (g : Heightmap)
    (h : ¬ listMax g.data - listMin g.data < 1 / 100000000) :
    g.normalise = ⟨g.width, g.height,
      g.data.map (fun v => (v - listMin g.data) / (listMax g.data - listMin g.data))⟩ := by
  simp only [Heightmap.normalise]
  rw [if_neg h]

theorem normalise_fixed_of_unit (g : Heightmap) (hmin : listMin g.data = 0)
    (hmax : listMax g.data = 1) : g.normalise = g := by
  have hguard : ¬ listMax g.data - listMin g.data < 1 / 100000000 := by
    rw [hmin, hmax]
    norm_num
  rw [normalise_of_large g hguard, hmin, hmax]
  have hid : g.data.map (fun v => (v - 0) / (1 - 0)) = g.data := by
    have h1 : ∀ v ∈ g.data, (v - 0) / (1 - 0) = v := by
      intro v _
      norm_num
    rw [List.map_congr_left h1, List.map_id']
  rw [hid]

theorem normalise_min_max (g : Heightmap) (hne : g.data ≠ [])
    (h : ¬ listMax g.data - listMin g.data < 1 / 100000000) :
    listMin g.normalise.data = 0 ∧ listMax g.normalise.data = 1 := by
  have hc : (0 : ℚ) < listMax g.data - listMin g.data := by
    have : (1 : ℚ) / 100000000 ≤ listMax g.data - listMin g.data := le_of_not_lt h
    linarith [this]
  rw [normalise_of_large g h]
  constructor
  · rw [listMin_map_affine g.data _ _ hc hne]
    simp
  · rw [listMax_map_affine g.data _ _ hc hne]
    rw [div_self (ne_of_gt hc)]

theorem normalise_bounds (g : Heightmap) (hne : g.data ≠ [])
    (h : ¬ listMax g.data - listMin g.data < 1 / 100000000) :
    ∀ v ∈ g.normalise.data, 0 ≤ v ∧ v ≤ 1 := by
  have hc : (0 : ℚ) < listMax g.data - listMin g.data := by
    have : (1 : ℚ) / 100000000 ≤ listMax g.data - listMin g.data := le_of_not_lt h
    linarith [this]
  rw [normalise_of_large g h]
  intro v hv
  simp only [List.mem_map] at hv
  obtain ⟨a, ha, rfl⟩ := hv
  constructor
  · apply div_nonneg _ hc.le
    have := listMin_le_mem ha
    linarith
  · rw [div_le_one hc]
    have := mem_le_listMax ha
    linarith

-- ───────────────────── Claim C5: normalise is idempotent ─────────────────────

/-- Claim C5: Heightmap::normalise is idempotent on every non-empty grid:
    applying it twice gives a grid identical to applying it once, including on
    near-constant grids where the 1e-8 guard makes it a no-op. -/
theorem C5_normalise_idempotent (g : Heightmap) (hne : g.data ≠ []) :
    g.normalise.normalise = g.normalise := by
  by_cases hguard : listMax g.data - listMin g.data < 1 / 100000000
  · rw [normalise_of_small g hguard, normalise_of_small g hguard]
  · obtain ⟨hmin, hmax⟩ := normalise_min_max g hne hguard
    exact normalise_fixed_of_unit g.normalise hmin hmax

/-- Witness for C5 at a concrete two-cell grid. -/
theorem C5_witness :
    (Heightmap.mk 2 1 [0, 2]).data ≠ [] ∧
      (Heightmap.mk 2 1 [0, 2]).normalise.normalise = (Heightmap.mk 2 1 [0, 2]).normalise :=
  ⟨by decide, C5_normalise_idempotent _ (by decide)⟩

-- ───────────────────── Claim C6: biome classifier examples ─────────────────────

/-- Claim C6: classify_biome is a pure function of its four arguments and
    returns DeepOcean, Desert, TropicalRainforest and Mountain on the four
    specified inputs. -/
theorem C6_classifier_examples :
    classify_biome (1 / 5) 15 (1 / 2) (2 / 5) = BiomeType.DeepOcean ∧
    classify_biome (3 / 5) 35 (1 / 10) (2 / 5) = BiomeType.Desert ∧
    classify_biome (11 / 20) 28 (4 / 5) (2 / 5) = BiomeType.TropicalRainforest ∧
    classify_biome (9 / 10) 5 (3 / 10) (2 / 5) = BiomeType.Mountain := by
  refine ⟨?_, ?_, ?_, ?_⟩ <;> decide

-- ───────────────────── Claim C4: serialisation round-trip ─────────────────────

theorem readU32_bytesOfU32 (v : ℕ) (hv : v < 2 ^ 32) (rest : List ℕ) :
    readU32 (bytesOfU32 v ++ rest) = some (v, rest) := by
  simp only [bytesOfU32, List.cons_append, List.nil_append, readU32, u32OfBytes]
  congr 2
  omega

theorem readF32s_flatMap (l : List ℕ) (hv : ∀ v ∈ l, v < 2 ^ 32) (rest : List ℕ) :
    readF32s l.length (l.flatMap bytesOfU32 ++ rest) = some (l, rest) := by
  induction l with
  | nil => rfl
  | cons a tl ih =>
      have ha : a < 2 ^ 32 := hv a (List.mem_cons_self a tl)
      have htl : ∀ v ∈ tl, v < 2 ^ 32 := fun v hvm => hv v (List.mem_cons_of_mem a hvm)
      simp only [List.flatMap_cons, List.length_cons, List.append_assoc, readF32s,
        readU32_bytesOfU32 a ha, ih htl]

/-- Claim C4: deserialise inverts serialise exactly on every Heightmap: the
    same width, the same height and bit-identical f32 cell values (cells are
    raw 32-bit patterns; the C++ length invariant is data.size() = the u32
    product width * height). -/
theorem C4_serialise_roundtrip (g : HeightmapBits) (hw : g.width < 2 ^ 32)
    (hh : g.height < 2 ^ 32) (hlen : g.data.length = g.width * g.height % 2 ^ 32)
    (hvals : ∀ v ∈ g.data, v < 2 ^ 32) :
    HeightmapBits.deserialise g.serialise = some g := by
  have h1 : g.serialise = bytesOfU32 g.width ++ (bytesOfU32 g.height ++
      (g.data.flatMap bytesOfU32 ++ [])) := by
    simp [HeightmapBits.serialise]
  simp only [HeightmapBits.deserialise, h1, readU32_bytesOfU32 g.width hw,
    readU32_bytesOfU32 g.height hh, ← hlen, readF32s_flatMap g.data hvals]

/-- Witness for C4 at a concrete 2 x 1 grid of two bit patterns. -/
theorem C4_witness :
    HeightmapBits.deserialise (HeightmapBits.serialise ⟨2, 1, [5, 4000000000]⟩) =
      some ⟨2, 1, [5, 4000000000]⟩ :=
  C4_serialise_roundtrip ⟨2, 1, [5, 4000000000]⟩ (by norm_num) (by norm_num)
    (by norm_num) (by decide)

-- ───────────────────── Claim C9: erosion leaves the border alone ─────────────────────

theorem depositOrErode_width (g : Heightmap) (ix iy : ℕ) (s sp wa hd : ℚ) :
    (depositOrErode g ix iy s sp wa hd).1.width = g.width := by
  unfold depositOrErode
  dsimp only
  split_ifs <;> rfl

theorem depositOrErode_length (g : Heightmap) (ix iy : ℕ) (s sp wa hd : ℚ) :
    (depositOrErode g ix iy s sp wa hd).1.data.length = g.data.length := by
  unfold depositOrErode
  dsimp only
  split_ifs <;> exact Heightmap.set_length g ix iy _

theorem depositOrErode_get_ne (g : Heightmap) {ix iy x y : ℕ} (s sp wa hd : ℚ)
    (hix : ix < g.width) (hx : x < g.width) (hne : (ix, iy) ≠ (x, y)) :
    (depositOrErode g ix iy s sp wa hd).1.get x y = g.get x y := by
  unfold depositOrErode
  dsimp only
  split_ifs <;> exact Heightmap.get_set_ne g _ hix hx hne

/-- Membership of the border of a cfg.width x cfg.height grid. -/
def onBorder (cfg : TerrainConfig) (x y : ℕ) : Prop :=
  x = 0 ∨ x = cfg.width - 1 ∨ y = 0 ∨ y = cfg.height - 1

theorem dropletLoop_border (cfg : TerrainConfig) (sqrtf : ℚ → ℚ) {x y : ℕ}
    (hx : x < cfg.width) (hb : onBorder cfg x y) :
    ∀ (n : ℕ) (st : DropState) (g : Heightmap), g.width = cfg.width →
      (dropletLoop cfg sqrtf n st g).get x y = g.get x y := by
  intro n
  induction n with
  | zero => intro st g _; rfl
  | succ n ih =>
      intro st g hgw
      rw [dropletLoop]
      dsimp only
      split
      · rfl
      · rename_i hguard1
        split
        · rfl
        · split
          · rfl
          · push_neg at hguard1
            obtain ⟨hix1, hix2, hiy1, hiy2⟩ := hguard1
            rw [ih _ _ (by rw [depositOrErode_width]; exact hgw)]
            apply depositOrErode_get_ne
            · rw [hgw]; omega
            · rw [hgw]; exact hx
            · intro hpe
              have hx12 : toU32floor st.px = x := congrArg Prod.fst hpe
              have hy12 : toU32floor st.py = y := congrArg Prod.snd hpe
              rcases hb with h0 | h0 | h0 | h0 <;> omega

theorem erosionIter_border (cfg : TerrainConfig) (sqrtf : ℚ → ℚ) {x y : ℕ}
    (hx : x < cfg.width) (hb : onBorder cfg x y) (g : Heightmap) (r : RNG)
    (hgw : g.width = cfg.width) :
    (erosionIter cfg sqrtf g r).1.get x y = g.get x y := by
  unfold erosionIter
  exact dropletLoop_border cfg sqrtf hx hb 50 _ g hgw

theorem dropletLoop_width (cfg : TerrainConfig) (sqrtf : ℚ → ℚ) :
    ∀ (n : ℕ) (st : DropState) (g : Heightmap),
      (dropletLoop cfg sqrtf n st g).width = g.width := by
  intro n
  induction n with
  | zero => intro st g; rfl
  | succ n ih =>
      intro st g
      rw [dropletLoop]
      dsimp only
      split
      · rfl
      · split
        · rfl
        · split
          · rfl
          · rw [ih, depositOrErode_width]

/-- Claim C9: apply_erosion never modifies a cell on the outermost border of
    the grid: for every config, RNG state, sqrt model and starting grid of the
    configured width, border cells are identical before and after stage 4. -/
theorem C9_erosion_border_frame (cfg : TerrainConfig) (elev : Heightmap) (r : RNG)
    (sqrtf : ℚ → ℚ) (hgw : elev.width = cfg.width) {x y : ℕ}
    (hx : x < cfg.width) (hy : y < cfg.height)
    (hb : x = 0 ∨ x = cfg.width - 1 ∨ y = 0 ∨ y = cfg.height - 1) :
    (apply_erosion elev cfg r sqrtf).1.get x y = elev.get x y := by
  unfold apply_erosion
  have main : ∀ (l : List ℕ) (p : Heightmap × RNG), p.1.width = cfg.width →
      ((l.foldl (fun (p : Heightmap × RNG) _ => erosionIter cfg sqrtf p.1 p.2) p).1.get x y =
        p.1.get x y) := by
    intro l
    induction l with
    | nil => intro p _; rfl
    | cons a tl ih =>
        intro p hpw
        simp only [List.foldl_cons]
        have hw2 : (erosionIter cfg sqrtf p.1 p.2).1.width = cfg.width := by
          unfold erosionIter
          rw [dropletLoop_width]
          exact hpw
        rw [ih _ hw2]
        exact erosionIter_border cfg sqrtf hx hb p.1 p.2 hpw
  exact main _ (elev, r) hgw

/-- Witness for C9: a concrete 3 x 3 run with one droplet leaves the corner
    cell untouched. -/
theorem C9_witness :
    (Heightmap.mk 3 3 (List.replicate 9 (1 / 2))).width = (TerrainConfig.mk 3 3 (2 / 5) 1 1 (3 / 10) 1).width ∧
      (apply_erosion (Heightmap.mk 3 3 (List.replicate 9 (1 / 2)))
          (TerrainConfig.mk 3 3 (2 / 5) 1 1 (3 / 10) 1) (RNG.init 0) (fun _ => 0)).1.get 0 0 =
        (Heightmap.mk 3 3 (List.replicate 9 (1 / 2))).get 0 0 :=
  ⟨rfl, C9_erosion_border_frame _ _ _ _ rfl (by norm_num) (by norm_num) (Or.inl rfl)⟩

-- ───────────────────── Claim C7: mountain ridges at boundaries ─────────────────────

theorem cellIdx_lt {w h x y : ℕ} (hx : x < w) (hy : y < h) : y * w + x < w * h := by
  calc y * w + x < y * w + w := by omega
  _ = (y + 1) * w := by ring
  _ ≤ h * w := Nat.mul_le_mul_right w (by omega)
  _ = w * h := Nat.mul_comm h w

/-- The four-neighbour test of the claim text: some in-grid 4-neighbour of the
    cell carries a different plate index (stated for every cell of the grid,
    border cells included). -/
def hasDiffNeighbour (pm : List ℕ) (w h x y : ℕ) : Bool :=
  let center := pm.getD (y * w + x) 0
  (decide (1 ≤ x) && decide (pm.getD (y * w + (x - 1)) 0 ≠ center)) ||
  (decide (x + 1 < w) && decide (pm.getD (y * w + (x + 1)) 0 ≠ center)) ||
  (decide (1 ≤ y) && decide (pm.getD ((y - 1) * w + x) 0 ≠ center)) ||
  (decide (y + 1 < h) && decide (pm.getD ((y + 1) * w + x) 0 ≠ center))

/-- The per-cell statement of claim C7 at one cell: a cell with a differing
    neighbour receives the ridged-noise increment, any other cell is unchanged
    by the pre-blur ridge step. -/
def ridgeClaimAt (elev : Heightmap) (pm : List ℕ) (cfg : TerrainConfig) (perm : ℕ → ℕ)
    (x y : ℕ) : Prop :=
  (hasDiffNeighbour pm cfg.width cfg.height x y = true →
    (ridgePass elev pm cfg perm).get x y =
      elev.get x y + ridgedAt perm cfg x y * cfg.mountain_scale) ∧
  (hasDiffNeighbour pm cfg.width cfg.height x y = false →
    (ridgePass elev pm cfg perm).get x y = elev.get x y)

theorem mem_interiorCells {w h : ℕ} {c : ℕ × ℕ} :
    c ∈ interiorCells w h ↔ 1 ≤ c.1 ∧ c.1 < w - 1 ∧ 1 ≤ c.2 ∧ c.2 < h - 1 := by
  simp only [interiorCells, List.mem_map, List.mem_range]
  constructor
  · rintro ⟨i, hi, rfl⟩
    have hm : 0 < w - 2 := by
      rcases Nat.eq_zero_or_pos (w - 2) with h0 | h0
      · rw [h0] at hi; omega
      · exact h0
    have hmod : i % (w - 2) < w - 2 := Nat.mod_lt i hm
    have hdiv : i / (w - 2) < h - 2 := by
      rw [Nat.div_lt_iff_lt_mul hm]
      calc i < (h - 2) * (w - 2) := hi
      _ = (h - 2) * (w - 2) := rfl
    dsimp only
    generalize i % (w - 2) = a at hmod ⊢
    generalize i / (w - 2) = b at hdiv ⊢
    omega
  · rintro ⟨h1, h2, h3, h4⟩
    have hm : 0 < w - 2 := by omega
    refine ⟨(c.2 - 1) * (w - 2) + (c.1 - 1), ?_, ?_⟩
    · calc (c.2 - 1) * (w - 2) + (c.1 - 1) < (c.2 - 1) * (w - 2) + (w - 2) := by omega
      _ = (c.2 - 1 + 1) * (w - 2) := by ring
      _ = c.2 * (w - 2) := by congr 1; omega
      _ ≤ (h - 2) * (w - 2) := Nat.mul_le_mul_right _ (by omega)
    · have e1 : (c.2 - 1) * (w - 2) + (c.1 - 1) = (c.1 - 1) + (w - 2) * (c.2 - 1) := by ring
      have emod : ((c.2 - 1) * (w - 2) + (c.1 - 1)) % (w - 2) = c.1 - 1 := by
        rw [e1, Nat.add_mul_mod_self_left, Nat.mod_eq_of_lt (by omega)]
      have ediv : ((c.2 - 1) * (w - 2) + (c.1 - 1)) / (w - 2) = c.2 - 1 := by
        rw [e1, Nat.add_mul_div_left _ _ hm, Nat.div_eq_of_lt (by omega)]
        omega
      rw [emod, ediv]
      have : c.1 - 1 + 1 = c.1 := by omega
      have h2' : c.2 - 1 + 1 = c.2 := by omega
      rw [this, h2']

theorem interiorCells_nodup (w h : ℕ) : (interiorCells w h).Nodup := by
  apply List.Nodup.map_on _ (List.nodup_range _)
  intro i hi j hj hij
  have hm : 0 < w - 2 := by
    rw [List.mem_range] at hi
    rcases Nat.eq_zero_or_pos (w - 2) with h0 | h0
    · rw [h0] at hi; omega
    · exact h0
  have hmod : i % (w - 2) = j % (w - 2) := by
    have := congrArg Prod.fst hij
    simpa using this
  have hdiv : i / (w - 2) = j / (w - 2) := by
    have := congrArg Prod.snd hij
    simpa using this
  calc i = (w - 2) * (i / (w - 2)) + i % (w - 2) := (Nat.div_add_mod i (w - 2)).symm
  _ = (w - 2) * (j / (w - 2)) + j % (w - 2) := by rw [hmod, hdiv]
  _ = j := Nat.div_add_mod j (w - 2)

theorem ridgeFold_get (pm : List ℕ) (cfg : TerrainConfig) (perm : ℕ → ℕ) :
    ∀ (L : List (ℕ × ℕ)), L.Nodup → (∀ c ∈ L, c.1 < cfg.width ∧ c.2 < cfg.height) →
    ∀ (g : Heightmap), g.width = cfg.width → g.data.length = cfg.width * cfg.height →
    ∀ x y, x < cfg.width → y < cfg.height →
      (L.foldl (fun g c => if isBoundary pm cfg.width c.1 c.2 then
          g.set c.1 c.2 (g.get c.1 c.2 + ridgedAt perm cfg c.1 c.2 * cfg.mountain_scale)
        else g) g).get x y =
      (if (x, y) ∈ L ∧ isBoundary pm cfg.width x y then
        g.get x y + ridgedAt perm cfg x y * cfg.mountain_scale
      else g.get x y) := by
  intro L
  induction L with
  | nil =>
      intro _ _ g _ _ x y _ _
      simp
  | cons c L ih =>
      intro hnd hmem g hgw hglen x y hx hy
      have hc := hmem c (List.mem_cons_self c L)
      have hLmem : ∀ d ∈ L, d.1 < cfg.width ∧ d.2 < cfg.height :=
        fun d hd => hmem d (List.mem_cons_of_mem c hd)
      have hupd : ∀ (g' : Heightmap), g'.width = cfg.width →
          g'.data.length = cfg.width * cfg.height →
          ((if isBoundary pm cfg.width c.1 c.2 then
            g'.set c.1 c.2 (g'.get c.1 c.2 + ridgedAt perm cfg c.1 c.2 * cfg.mountain_scale)
          else g').width = cfg.width ∧
          (if isBoundary pm cfg.width c.1 c.2 then
            g'.set c.1 c.2 (g'.get c.1 c.2 + ridgedAt perm cfg c.1 c.2 * cfg.mountain_scale)
          else g').data.length = cfg.width * cfg.height) := by
        intro g' h1 h2
        split
        · exact ⟨h1, by rw [Heightmap.set_length]; exact h2⟩
        · exact ⟨h1, h2⟩
      simp only [List.foldl_cons]
      set g1 := if isBoundary pm cfg.width c.1 c.2 then
          g.set c.1 c.2 (g.get c.1 c.2 + ridgedAt perm cfg c.1 c.2 * cfg.mountain_scale)
        else g with hg1
      obtain ⟨hg1w, hg1len⟩ := hupd g hgw hglen
      rw [ih (List.Nodup.of_cons hnd) hLmem g1 hg1w hg1len x y hx hy]
      by_cases hinL : (x, y) ∈ L
      · have hne : c ≠ (x, y) := by
          intro hce
          rw [hce] at hnd
          exact (List.nodup_cons.mp hnd).1 hinL
        have hg1get : g1.get x y = g.get x y := by
          rw [hg1]
          split
          · exact Heightmap.get_set_ne g _ (hgw ▸ hc.1) (hgw ▸ hx) hne
          · rfl
        by_cases hbd : isBoundary pm cfg.width x y
        · rw [if_pos ⟨hinL, hbd⟩, if_pos ⟨List.mem_cons_of_mem c hinL, hbd⟩, hg1get]
        · rw [if_neg (fun hcon => hbd hcon.2), if_neg (fun hcon => hbd hcon.2), hg1get]
      · by_cases hcxy : c = (x, y)
        · have hxyL : ((x, y) ∈ c :: L) := by rw [← hcxy]; exact List.mem_cons_self c L
          rw [if_neg (fun hcon => hinL hcon.1)]
          by_cases hbd : isBoundary pm cfg.width x y
          · rw [if_pos ⟨hxyL, hbd⟩, hg1]
            have hbdc : isBoundary pm cfg.width c.1 c.2 = true := by
              rw [hcxy]; exact hbd
            rw [if_pos hbdc]
            have : c.1 = x ∧ c.2 = y := by
              rw [hcxy]; exact ⟨rfl, rfl⟩
            obtain ⟨hc1, hc2⟩ := this
            subst hc1; subst hc2
            rw [Heightmap.get_set_self]
            rw [hglen, hgw]
            exact cellIdx_lt hx hy
          · rw [if_neg (fun hcon => hbd hcon.2), hg1]
            have hbdc : ¬ isBoundary pm cfg.width c.1 c.2 = true := by
              rw [hcxy]; exact hbd
            rw [if_neg hbdc]
        · have hnot : ¬ ((x, y) ∈ c :: L) := by
            intro hcon
            rcases List.mem_cons.mp hcon with hcon1 | hcon1
            · exact hcxy hcon1.symm
            · exact hinL hcon1
          rw [if_neg (fun hcon => hinL hcon.1), if_neg (fun hcon => hnot hcon.1), hg1]
          split
          · exact Heightmap.get_set_ne g _ (hgw ▸ hc.1) (hgw ▸ hx)
              (fun hcon => hcxy hcon)
          · rfl

/-- Counterexample to claim C7 as stated: on a 3 x 3 grid whose first column is
    plate 0 and the rest plate 1, the border cell (0, 1) has a differing
    neighbour but the ridge step leaves it unchanged (the loop covers interior
    cells only), while the claim demands a nonzero ridged increment there. -/
theorem C7_counterexample :
    ¬ (∀ x, x < 3 → ∀ y, y < 3 →
      ridgeClaimAt (Heightmap.mk 3 3 (List.replicate 9 0)) [0, 1, 1, 0, 1, 1, 0, 1, 1]
        (TerrainConfig.mk 3 3 (2 / 5) 2 1 1 0) (PerlinNoise.mkPerm 0) x y) := by
  intro hall
  have h01 := (hall 0 (by norm_num) 1 (by norm_num)).1 (by decide)
  revert h01
  decide

/-- Claim C7 as amended: before the final blur, stage 3 adds the ridged-noise
    increment exactly at interior cells (both coordinates strictly inside the
    border) whose 4-neighbourhood touches a different plate, and leaves every
    other cell - interior non-boundary cells and all border cells - unchanged. -/
theorem C7_ridges_interior_boundary (elev : Heightmap) (pm : List ℕ) (cfg : TerrainConfig)
    (perm : ℕ → ℕ) (hgw : elev.width = cfg.width)
    (hglen : elev.data.length = cfg.width * cfg.height)
    {x y : ℕ} (hx : x < cfg.width) (hy : y < cfg.height) :
    (ridgePass elev pm cfg perm).get x y =
      (if 1 ≤ x ∧ x < cfg.width - 1 ∧ 1 ≤ y ∧ y < cfg.height - 1 ∧
          isBoundary pm cfg.width x y then
        elev.get x y + ridgedAt perm cfg x y * cfg.mountain_scale
      else elev.get x y) := by
  unfold ridgePass
  rw [ridgeFold_get pm cfg perm (interiorCells cfg.width cfg.height)
    (interiorCells_nodup _ _)
    (fun c hc => by
      have := mem_interiorCells.mp hc
      exact ⟨by omega, by omega⟩)
    elev hgw hglen x y hx hy]
  by_cases hin : (x, y) ∈ interiorCells cfg.width cfg.height
  · have hb := mem_interiorCells.mp hin
    simp only at hb
    by_cases hbd : isBoundary pm cfg.width x y
    · rw [if_pos ⟨hin, hbd⟩, if_pos ⟨hb.1, hb.2.1, hb.2.2.1, hb.2.2.2, hbd⟩]
    · rw [if_neg (fun hcon => hbd hcon.2), if_neg (fun hcon => hbd hcon.2.2.2.2)]
  · have hnb : ¬ (1 ≤ x ∧ x < cfg.width - 1 ∧ 1 ≤ y ∧ y < cfg.height - 1 ∧
        isBoundary pm cfg.width x y) := by
      intro hcon
      exact hin (mem_interiorCells.mpr ⟨hcon.1, hcon.2.1, hcon.2.2.1, hcon.2.2.2.1⟩)
    rw [if_neg (fun hcon => hin hcon.1), if_neg hnb]

/-- Witness for the amended C7 at the interior boundary cell (1, 1) of a
    concrete 3 x 3 instance. -/
theorem C7_witness :
    (Heightmap.mk 3 3 (List.replicate 9 0)).width = (TerrainConfig.mk 3 3 (2 / 5) 2 1 1 0).width ∧
      (ridgePass (Heightmap.mk 3 3 (List.replicate 9 0)) [0, 1, 1, 0, 1, 1, 0, 1, 1]
          (TerrainConfig.mk 3 3 (2 / 5) 2 1 1 0) (PerlinNoise.mkPerm 0)).get 1 1 =
        (if 1 ≤ 1 ∧ 1 < (TerrainConfig.mk 3 3 (2 / 5) 2 1 1 0).width - 1 ∧ 1 ≤ 1 ∧
            1 < (TerrainConfig.mk 3 3 (2 / 5) 2 1 1 0).height - 1 ∧
            isBoundary [0, 1, 1, 0, 1, 1, 0, 1, 1] (TerrainConfig.mk 3 3 (2 / 5) 2 1 1 0).width 1 1 then
          (Heightmap.mk 3 3 (List.replicate 9 0)).get 1 1 +
            ridgedAt (PerlinNoise.mkPerm 0) (TerrainConfig.mk 3 3 (2 / 5) 2 1 1 0) 1 1 *
              (TerrainConfig.mk 3 3 (2 / 5) 2 1 1 0).mountain_scale
        else (Heightmap.mk 3 3 (List.replicate 9 0)).get 1 1) :=
  ⟨rfl, C7_ridges_interior_boundary _ _ _ _ rfl (by decide) (by norm_num) (by norm_num)⟩

-- ───────────────────── Dimension bookkeeping through the pipeline ─────────────────────

/-- Dimension invariant: a grid of the configured size. -/
def HasDims (g : Heightmap) (w h : ℕ) : Prop :=
  g.width = w ∧ g.height = h ∧ g.data.length = w * h

theorem hasDims_set {g : Heightmap} {w h : ℕ} (hd : HasDims g w h) (x y : ℕ) (v : ℚ) :
    HasDims (g.set x y v) w h :=
  ⟨hd.1, hd.2.1, by rw [Heightmap.set_length]; exact hd.2.2⟩

theorem hasDims_blur {g : Heightmap} {w h : ℕ} (hd : HasDims g w h) (r : ℕ) :
    HasDims (g.blur r) w h := by
  refine ⟨hd.1, hd.2.1, ?_⟩
  simp only [Heightmap.blur, mapCells_length]
  rw [hd.1, hd.2.1]

theorem hasDims_depositOrErode {g : Heightmap} {w h : ℕ} (hd : HasDims g w h)
    (ix iy : ℕ) (s sp wa hdi : ℚ) :
    HasDims (depositOrErode g ix iy s sp wa hdi).1 w h := by
  unfold depositOrErode
  dsimp only
  split_ifs <;> exact hasDims_set hd _ _ _

theorem hasDims_dropletLoop (cfg : TerrainConfig) (sqrtf : ℚ → ℚ) {w h : ℕ} :
    ∀ (n : ℕ) (st : DropState) (g : Heightmap), HasDims g w h →
      HasDims (dropletLoop cfg sqrtf n st g) w h := by
  intro n
  induction n with
  | zero => intro st g hd; exact hd
  | succ n ih =>
      intro st g hd
      rw [dropletLoop]
      dsimp only
      split
      · exact hd
      · split
        · exact hd
        · split
          · exact hd
          · exact ih _ _ (hasDims_depositOrErode hd _ _ _ _ _ _)

theorem hasDims_apply_erosion (cfg : TerrainConfig) (sqrtf : ℚ → ℚ) {w h : ℕ}
    (elev : Heightmap) (r : RNG) (hd : HasDims elev w h) :
    HasDims (apply_erosion elev cfg r sqrtf).1 w h := by
  unfold apply_erosion
  have main : ∀ (l : List ℕ) (p : Heightmap × RNG), HasDims p.1 w h →
      HasDims (l.foldl (fun (p : Heightmap × RNG) _ => erosionIter cfg sqrtf p.1 p.2) p).1 w h := by
    intro l
    induction l with
    | nil => intro p hp; exact hp
    | cons a tl ih =>
        intro p hp
        simp only [List.foldl_cons]
        apply ih
        unfold erosionIter
        exact hasDims_dropletLoop cfg sqrtf 50 _ p.1 hp
  exact main _ (elev, r) hd

theorem hasDims_ridgePass (elev : Heightmap) (pm : List ℕ) (cfg : TerrainConfig)
    (perm : ℕ → ℕ) {w h : ℕ} (hd : HasDims elev w h) :
    HasDims (ridgePass elev pm cfg perm) w h := by
  unfold ridgePass
  have main : ∀ (l : List (ℕ × ℕ)) (g : Heightmap), HasDims g w h →
      HasDims (l.foldl (fun g c => if isBoundary pm cfg.width c.1 c.2 then
        g.set c.1 c.2 (g.get c.1 c.2 + ridgedAt perm cfg c.1 c.2 * cfg.mountain_scale)
      else g) g) w h := by
    intro l
    induction l with
    | nil => intro g hg; exact hg
    | cons a tl ih =>
        intro g hg
        simp only [List.foldl_cons]
        apply ih
        split
        · exact hasDims_set hg _ _ _
        · exact hg
  exact main _ elev hd

theorem hasDims_normalise (g : Heightmap) {w h : ℕ} (hd : HasDims g w h) :
    HasDims g.normalise w h := by
  unfold Heightmap.normalise
  dsimp only
  split
  · exact hd
  · exact ⟨hd.1, hd.2.1, by rw [List.length_map]; exact hd.2.2⟩

theorem normalise_data_ne_nil (g : Heightmap) (hne : g.data ≠ []) : g.normalise.data ≠ [] := by
  unfold Heightmap.normalise
  dsimp only
  split
  · exact hne
  · exact fun hcon => hne (List.map_eq_nil_iff.mp hcon)

theorem hasDims_apply_continental (elev : Heightmap) (cfg : TerrainConfig) (r : RNG) :
    HasDims (apply_continental_noise elev cfg r).1 cfg.width cfg.height := by
  refine ⟨rfl, rfl, ?_⟩
  unfold apply_continental_noise
  dsimp only
  exact mapCells_length _ _ _

theorem hasDims_apply_mountain (elev : Heightmap) (pm : List ℕ) (cfg : TerrainConfig)
    (r : RNG) (hd : HasDims elev cfg.width cfg.height) :
    HasDims (apply_mountain_ridges elev pm cfg r).1 cfg.width cfg.height :=
  hasDims_blur (hasDims_ridgePass _ _ _ _ hd) 2

theorem hasDims_stages14 (cfg : TerrainConfig) (r : RNG) (sqrtf : ℚ → ℚ) :
    HasDims (stages14 cfg r sqrtf).1 cfg.width cfg.height := by
  refine hasDims_apply_erosion cfg sqrtf _ _ ?_
  refine hasDims_apply_mountain _ _ _ _ ?_
  exact hasDims_apply_continental _ _ _

theorem hasDims_preRemap (cfg : TerrainConfig) (r : RNG) (sqrtf : ℚ → ℚ) :
    HasDims (preRemap cfg r sqrtf).1 cfg.width cfg.height := by
  unfold preRemap
  dsimp only
  exact hasDims_normalise _ (hasDims_stages14 cfg r sqrtf)

-- ───────────────────── Sorted-count lemmas for stage 5 ─────────────────────

theorem countP_lt_getElem_of_sorted (l : List ℚ) (hs : List.Sorted (· ≤ ·) l)
    (hnd : l.Nodup) : ∀ (k : ℕ) (hk : k < l.length),
    l.countP (fun e => decide (e < l[k])) = k := by
  induction l with
  | nil => intro k hk; cases hk
  | cons a tl ih =>
      have hle : ∀ b ∈ tl, a ≤ b := (List.sorted_cons.mp hs).1
      have hstl : List.Sorted (· ≤ ·) tl := (List.sorted_cons.mp hs).2
      have hna : a ∉ tl := (List.nodup_cons.mp hnd).1
      have hntl : tl.Nodup := (List.nodup_cons.mp hnd).2
      intro k hk
      match k with
      | 0 =>
          simp only [List.getElem_cons_zero, List.countP_cons]
          have h1 : tl.countP (fun e => decide (e < a)) = 0 := by
            apply List.countP_eq_zero.mpr
            intro e he
            simp only [decide_eq_true_eq]
            exact not_lt.mpr (hle e he)
          simp [h1]
      | k + 1 =>
          have hk' : k < tl.length := by simpa using hk
          simp only [List.getElem_cons_succ, List.countP_cons]
          have hlt : a < tl[k] := by
            have hmem : tl[k] ∈ tl := List.getElem_mem hk'
            exact lt_of_le_of_ne (hle _ hmem) (fun he => hna (he ▸ hmem))
          rw [ih hstl hntl k hk']
          simp [hlt]

/-- The predicate "this output cell counts as ocean": a defined value strictly
    below sea level (an IEEE NaN compares false). -/
def isBelowSea (sea : ℚ) : Option ℚ → Bool
  | some v => decide (v < sea)
  | none => false

/-- Fraction of cells strictly below sea level in a remapped grid. -/
def fracBelow (g : OHeightmap) (sea : ℚ) : ℚ :=
  ((g.data.countP (isBelowSea sea) : ℕ) : ℚ) / ((g.data.length : ℕ) : ℚ)

theorem isBelowSea_some (sea v : ℚ) : isBelowSea sea (some v) = decide (v < sea) := rfl

theorem isBelowSea_none (sea : ℚ) : isBelowSea sea none = false := rfl

theorem isBelowSea_remapCell (sea t e : ℚ) (hs0 : 0 < sea) (hs1 : sea < 1)
    (he0 : 0 ≤ e) (he1 : e ≤ 1) (ht0 : 0 ≤ t) :
    isBelowSea sea (remapCell sea t e) = decide (e < t) := by
  unfold remapCell
  by_cases het : e ≤ t
  · rw [if_pos het]
    by_cases ht : t = 0
    · have he : e = 0 := le_antisymm (ht ▸ het) he0
      subst ht
      subst he
      have hq0 : qdiv (0 : ℚ) 0 = none := by
        unfold qdiv
        rw [if_pos rfl]
      rw [hq0, Option.map_none', isBelowSea_none, decide_eq_false (lt_irrefl 0)]
    · have htpos : 0 < t := lt_of_le_of_ne ht0 (Ne.symm ht)
      have hqd : qdiv e t = some (e / t) := by
        unfold qdiv
        rw [if_neg ht]
      rw [hqd, Option.map_some', isBelowSea_some, decide_eq_decide]
      constructor
      · intro hlt
        have h1 : e / t < 1 := by
          by_contra hge
          push_neg at hge
          have : sea ≤ e / t * sea := le_mul_of_one_le_left hs0.le hge
          linarith
        exact (div_lt_one htpos).mp h1
      · intro hlt
        have h1 : e / t < 1 := (div_lt_one htpos).mpr hlt
        calc e / t * sea < 1 * sea := mul_lt_mul_of_pos_right h1 hs0
        _ = sea := one_mul sea
  · rw [if_neg het]
    push_neg at het
    have ht1 : t < 1 := lt_of_lt_of_le het he1
    have hden : (0 : ℚ) < 1 - t := by linarith
    have hdne : (1 : ℚ) - t ≠ 0 := ne_of_gt hden
    have hqd : qdiv (e - t) (1 - t) = some ((e - t) / (1 - t)) := by
      unfold qdiv
      rw [if_neg hdne]
    rw [hqd, Option.map_some', isBelowSea_some]
    have hq : 0 < (e - t) / (1 - t) := div_pos (by linarith) hden
    have hpos : 0 < (e - t) / (1 - t) * (1 - sea) := mul_pos hq (by linarith)
    have hval : ¬ (sea + (e - t) / (1 - t) * (1 - sea) < sea) := by
      push_neg
      linarith
    rw [decide_eq_false hval, decide_eq_false (not_lt.mpr het.le)]

theorem fracBelow_seaLevelRemap (g : Heightmap) (sea : ℚ) (hs0 : 0 < sea) (hs1 : sea < 1)
    (hne : g.data ≠ []) (hb : ∀ v ∈ g.data, 0 ≤ v ∧ v ≤ 1) (hnd : g.data.Nodup) :
    |fracBelow (seaLevelRemap g sea) sea - sea| ≤ 1 / (g.data.length : ℚ) := by
  have hn : 0 < g.data.length := List.length_pos.mpr hne
  have hnq : (0 : ℚ) < (g.data.length : ℚ) := by exact_mod_cast hn
  have hfl0 : (0 : ℤ) ≤ ⌊sea * (g.data.length : ℚ)⌋ := Int.floor_nonneg.mpr (by positivity)
  have hfln : ⌊sea * (g.data.length : ℚ)⌋ < (g.data.length : ℤ) := by
    apply Int.floor_lt.mpr
    push_cast
    calc sea * (g.data.length : ℚ) < 1 * (g.data.length : ℚ) :=
      mul_lt_mul_of_pos_right hs1 hnq
    _ = (g.data.length : ℚ) := one_mul _
  have hkn : (⌊sea * (g.data.length : ℚ)⌋).toNat < g.data.length := by omega
  have hmin2 : min (⌊sea * (g.data.length : ℚ)⌋).toNat (g.data.length - 1) =
      (⌊sea * (g.data.length : ℚ)⌋).toNat := by omega
  have hperm : (g.data.insertionSort (· ≤ ·)).Perm g.data :=
    List.perm_insertionSort _ g.data
  have hsort : List.Sorted (· ≤ ·) (g.data.insertionSort (· ≤ ·)) :=
    List.sorted_insertionSort _ g.data
  have hndS : (g.data.insertionSort (· ≤ ·)).Nodup :=
    (List.Perm.nodup_iff hperm).mpr hnd
  have hkS : (⌊sea * (g.data.length : ℚ)⌋).toNat <
      (g.data.insertionSort (· ≤ ·)).length := by
    rw [hperm.length_eq]
    exact hkn
  have ht : seaThreshold g.data sea =
      (g.data.insertionSort (· ≤ ·))[(⌊sea * (g.data.length : ℚ)⌋).toNat] := by
    unfold seaThreshold
    dsimp only
    rw [hmin2]
    exact List.getD_eq_getElem _ 0 hkS
  have htmem : seaThreshold g.data sea ∈ g.data := by
    rw [ht]
    exact (List.Perm.mem_iff hperm).mp (List.getElem_mem hkS)
  have ht0 : 0 ≤ seaThreshold g.data sea := (hb _ htmem).1
  have hcount : (seaLevelRemap g sea).data.countP (isBelowSea sea) =
      (⌊sea * (g.data.length : ℚ)⌋).toNat := by
    unfold seaLevelRemap
    dsimp only
    rw [List.countP_map]
    have hcongr : g.data.countP (isBelowSea sea ∘ remapCell sea (seaThreshold g.data sea)) =
        g.data.countP (fun e => decide (e < seaThreshold g.data sea)) := by
      apply List.countP_congr
      intro e he
      have hbe := hb e he
      simp only [Function.comp_apply,
        isBelowSea_remapCell sea _ e hs0 hs1 hbe.1 hbe.2 ht0]
    rw [hcongr, ← List.Perm.countP_eq _ hperm, ht]
    exact countP_lt_getElem_of_sorted _ hsort hndS _ hkS
  have hlen : (seaLevelRemap g sea).data.length = g.data.length := by
    unfold seaLevelRemap
    dsimp only
    rw [List.length_map]
  have hkq : (((⌊sea * (g.data.length : ℚ)⌋).toNat : ℚ)) ≤ sea * (g.data.length : ℚ) := by
    have h2 : (((⌊sea * (g.data.length : ℚ)⌋).toNat : ℤ) : ℚ) ≤ sea * (g.data.length : ℚ) := by
      rw [Int.toNat_of_nonneg hfl0]
      exact Int.floor_le _
    exact_mod_cast h2
  have hkq2 : sea * (g.data.length : ℚ) < ((⌊sea * (g.data.length : ℚ)⌋).toNat : ℚ) + 1 := by
    have h2 : sea * (g.data.length : ℚ) <
        (((⌊sea * (g.data.length : ℚ)⌋).toNat : ℤ) : ℚ) + 1 := by
      rw [Int.toNat_of_nonneg hfl0]
      exact Int.lt_floor_add_one _
    exact_mod_cast h2
  unfold fracBelow
  rw [hcount, hlen]
  have heq : ((⌊sea * (g.data.length : ℚ)⌋).toNat : ℚ) / (g.data.length : ℚ) - sea =
      (((⌊sea * (g.data.length : ℚ)⌋).toNat : ℚ) - sea * (g.data.length : ℚ)) /
        (g.data.length : ℚ) := by
    field_simp
    ring
  rw [heq, abs_div, abs_of_pos hnq]
  have habs : |((⌊sea * (g.data.length : ℚ)⌋).toNat : ℚ) - sea * (g.data.length : ℚ)| ≤ 1 := by
    rw [abs_le]
    exact ⟨by linarith, by linarith⟩
  gcongr

-- ───────────────────── Claim C1: sea-level fraction ─────────────────────

/-- Counterexample to claim C1 as stated: with width = height = 2, one plate,
    one fbm octave and zero erosion iterations (sea_level = 3/10), every noise
    sample falls on the integer lattice and vanishes, the grid stays constant,
    the no-op normalisation guard fires, and the remap sends every cell to
    exactly sea_level: the fraction of cells strictly below sea_level is 0,
    which is not within 1/4 of 3/10. -/
theorem C1_counterexample :
    ¬ (|fracBelow (generate (TerrainConfig.mk 2 2 (3 / 10) 1 1 (3 / 10) 0) (RNG.init 0)
          (fun _ => 0)).1 (3 / 10) - 3 / 10| ≤
        1 / (((2 * 2 : ℕ)) : ℚ)) := by
  decide

/-- Claim C1 as amended: when the stage-5 normalisation is effective (the
    1e-8 guard does not fire) and the normalised cell values are pairwise
    distinct, the fraction of cells strictly below sea_level in the generated
    grid equals sea_level to within 1/(width*height). -/
theorem C1_sea_fraction_distinct (cfg : TerrainConfig) (r : RNG) (sqrtf : ℚ → ℚ)
    (hs0 : 0 < cfg.sea_level) (hs1 : cfg.sea_level < 1)
    (hne : (stages14 cfg r sqrtf).1.data ≠ [])
    (hact : ¬ listMax (stages14 cfg r sqrtf).1.data -
      listMin (stages14 cfg r sqrtf).1.data < 1 / 100000000)
    (hnd : (preRemap cfg r sqrtf).1.data.Nodup) :
    |fracBelow (generate cfg r sqrtf).1 cfg.sea_level - cfg.sea_level| ≤
      1 / (((cfg.width * cfg.height : ℕ)) : ℚ) := by
  have hb : ∀ v ∈ (preRemap cfg r sqrtf).1.data, 0 ≤ v ∧ v ≤ 1 :=
    normalise_bounds (stages14 cfg r sqrtf).1 hne hact
  have hne2 : (preRemap cfg r sqrtf).1.data ≠ [] :=
    normalise_data_ne_nil (stages14 cfg r sqrtf).1 hne
  have hlen : (preRemap cfg r sqrtf).1.data.length = cfg.width * cfg.height :=
    (hasDims_preRemap cfg r sqrtf).2.2
  have hmain := fracBelow_seaLevelRemap (preRemap cfg r sqrtf).1 cfg.sea_level hs0 hs1
    hne2 hb hnd
  rw [hlen] at hmain
  exact hmain

/-- Witness for the amended C1 at a concrete 3 x 1 run whose normalised values
    are pairwise distinct. -/
theorem C1_witness :
    (0 : ℚ) < (TerrainConfig.mk 3 1 (1 / 2) 1 1 (3 / 10) 0).sea_level ∧
    (stages14 (TerrainConfig.mk 3 1 (1 / 2) 1 1 (3 / 10) 0) (RNG.init 0)
      (fun _ => 0)).1.data ≠ [] ∧
    (preRemap (TerrainConfig.mk 3 1 (1 / 2) 1 1 (3 / 10) 0) (RNG.init 0)
      (fun _ => 0)).1.data.Nodup ∧
    |fracBelow (generate (TerrainConfig.mk 3 1 (1 / 2) 1 1 (3 / 10) 0) (RNG.init 0)
        (fun _ => 0)).1 (TerrainConfig.mk 3 1 (1 / 2) 1 1 (3 / 10) 0).sea_level -
      (TerrainConfig.mk 3 1 (1 / 2) 1 1 (3 / 10) 0).sea_level| ≤
      1 / ((((TerrainConfig.mk 3 1 (1 / 2) 1 1 (3 / 10) 0).width *
        (TerrainConfig.mk 3 1 (1 / 2) 1 1 (3 / 10) 0).height : ℕ)) : ℚ) :=
  ⟨by norm_num, by decide, by decide,
    C1_sea_fraction_distinct _ _ _ (by norm_num) (by norm_num) (by decide) (by decide)
      (by decide)⟩

-- ───────────────────── Claim C2: elevation range invariant ─────────────────────

/-- Counterexample to claim C2 as stated: with width 3, height 1 and
    sea_level = 1/10 < 1/N, the selected threshold is the minimum of the
    normalised grid, exactly 0, and the remap computes 0/0 at the minimum
    cell - an IEEE NaN (a none cell), which does not satisfy 0 <= v <= 1. -/
theorem C2_counterexample :
    ¬ (∀ o ∈ (generate (TerrainConfig.mk 3 1 (1 / 10) 1 1 (3 / 10) 0) (RNG.init 0)
        (fun _ => 0)).1.data, ∃ v, o = some v ∧ 0 ≤ v ∧ v ≤ 1) := by
  intro hall
  have hmem : (none : Option ℚ) ∈ (generate (TerrainConfig.mk 3 1 (1 / 10) 1 1 (3 / 10) 0)
      (RNG.init 0) (fun _ => 0)).1.data := by decide
  obtain ⟨v, hv, _⟩ := hall none hmem
  exact Option.noConfusion hv

theorem seaThreshold_mem (data : List ℚ) (sea : ℚ) (hne : data ≠ []) :
    seaThreshold data sea ∈ data := by
  have hn : 0 < data.length := List.length_pos.mpr hne
  have hperm : (data.insertionSort (· ≤ ·)).Perm data :=
    List.perm_insertionSort _ data
  have hkS : min (⌊sea * (data.length : ℚ)⌋).toNat (data.length - 1) <
      (data.insertionSort (· ≤ ·)).length := by
    rw [hperm.length_eq]
    omega
  unfold seaThreshold
  dsimp only
  rw [List.getD_eq_getElem _ 0 hkS]
  exact (List.Perm.mem_iff hperm).mp (List.getElem_mem hkS)

theorem remapCell_mem_unit (sea t e : ℚ) (hs0 : 0 < sea) (hs1 : sea < 1)
    (he0 : 0 ≤ e) (he1 : e ≤ 1) (ht0 : 0 < t) (ht1 : t ≤ 1) :
    ∃ v, remapCell sea t e = some v ∧ 0 ≤ v ∧ v ≤ 1 := by
  unfold remapCell
  by_cases het : e ≤ t
  · rw [if_pos het]
    have hqd : qdiv e t = some (e / t) := by
      unfold qdiv
      rw [if_neg (ne_of_gt ht0)]
    rw [hqd, Option.map_some']
    refine ⟨e / t * sea, rfl, ?_, ?_⟩
    · positivity
    · have h1 : e / t ≤ 1 := (div_le_one ht0).mpr het
      calc e / t * sea ≤ 1 * sea := mul_le_mul_of_nonneg_right h1 hs0.le
      _ = sea := one_mul sea
      _ ≤ 1 := hs1.le
  · rw [if_neg het]
    push_neg at het
    have ht2 : t < 1 := lt_of_lt_of_le het he1
    have hden : (0 : ℚ) < 1 - t := by linarith
    have hqd : qdiv (e - t) (1 - t) = some ((e - t) / (1 - t)) := by
      unfold qdiv
      rw [if_neg (ne_of_gt hden)]
    rw [hqd, Option.map_some']
    refine ⟨sea + (e - t) / (1 - t) * (1 - sea), rfl, ?_, ?_⟩
    · have hq : 0 ≤ (e - t) / (1 - t) := le_of_lt (div_pos (by linarith) hden)
      nlinarith
    · have hq : (e - t) / (1 - t) ≤ 1 := (div_le_one hden).mpr (by linarith)
      nlinarith

/-- The stage-5 output is the cellwise remap of the normalised grid. -/
theorem generate_data_eq (cfg : TerrainConfig) (r : RNG) (sqrtf : ℚ → ℚ) :
    (generate cfg r sqrtf).1.data = (preRemap cfg r sqrtf).1.data.map
      (remapCell cfg.sea_level
        (seaThreshold (preRemap cfg r sqrtf).1.data cfg.sea_level)) := rfl

/-- Claim C2 as amended: every cell of the generated elevation grid is a
    defined value in [0, 1] provided the stage-5 input values lie in [0, 1]
    (normalisation effective) and the selected sea-level threshold is nonzero;
    the counterexample shows the zero-threshold case produces NaN cells. -/
theorem C2_elevation_range (cfg : TerrainConfig) (r : RNG) (sqrtf : ℚ → ℚ)
    (hs0 : 0 < cfg.sea_level) (hs1 : cfg.sea_level < 1)
    (hb : ∀ v ∈ (preRemap cfg r sqrtf).1.data, 0 ≤ v ∧ v ≤ 1)
    (ht : seaThreshold (preRemap cfg r sqrtf).1.data cfg.sea_level ≠ 0) :
    ∀ o ∈ (generate cfg r sqrtf).1.data, ∃ v, o = some v ∧ 0 ≤ v ∧ v ≤ 1 := by
  intro o ho
  rw [generate_data_eq] at ho
  obtain ⟨e, he, rfl⟩ := List.mem_map.mp ho
  have hne : (preRemap cfg r sqrtf).1.data ≠ [] := List.ne_nil_of_mem he
  have htmem := seaThreshold_mem (preRemap cfg r sqrtf).1.data cfg.sea_level hne
  have ht0 : 0 < seaThreshold (preRemap cfg r sqrtf).1.data cfg.sea_level :=
    lt_of_le_of_ne (hb _ htmem).1 (Ne.symm ht)
  exact remapCell_mem_unit _ _ e hs0 hs1 (hb e he).1 (hb e he).2 ht0 (hb _ htmem).2

/-- Witness for the amended C2 at a concrete 3 x 1 run with positive
    threshold. -/
theorem C2_witness :
    (∀ v ∈ (preRemap (TerrainConfig.mk 3 1 (1 / 2) 1 1 (3 / 10) 0) (RNG.init 0)
      (fun _ => 0)).1.data, 0 ≤ v ∧ v ≤ 1) ∧
    seaThreshold (preRemap (TerrainConfig.mk 3 1 (1 / 2) 1 1 (3 / 10) 0) (RNG.init 0)
      (fun _ => 0)).1.data (TerrainConfig.mk 3 1 (1 / 2) 1 1 (3 / 10) 0).sea_level ≠ 0 ∧
    (∀ o ∈ (generate (TerrainConfig.mk 3 1 (1 / 2) 1 1 (3 / 10) 0) (RNG.init 0)
      (fun _ => 0)).1.data, ∃ v, o = some v ∧ 0 ≤ v ∧ v ≤ 1) :=
  ⟨by decide, by decide,
    C2_elevation_range _ _ _ (by norm_num) (by norm_num) (by decide) (by decide)⟩

-- ───────────────────── Claim C3: pipeline determinism ─────────────────────

/-- The full pipeline from an RNG state: elevation (stage-5 cells, NaN cells as
    none), then temperature, then moisture, threading the single RNG stream in
    program order. Downstream stages read the stored f32 cells; on runs without
    a zero-divisor division the getD 0 resolution is exact. -/
def pipelineFrom (tc : TerrainConfig) (cc : ClimateConfig) (sqrtf powf expf : ℚ → ℚ)
    (r : RNG) : OHeightmap × Heightmap × Heightmap :=
  let er := generate tc r sqrtf
  let elev : Heightmap := ⟨er.1.width, er.1.height, er.1.data.map (fun o => o.getD 0)⟩
  let tr := generate_temperature elev cc er.2
  let mr := generate_moisture elev tr.1 cc tr.2 sqrtf powf expf
  (er.1, tr.1, mr.1)

/-- Claim C3: two independent pipeline runs from fresh RNGs seeded with the
    same seed produce identical elevation, temperature and moisture grids: the
    embedded pipeline is a pure function of the seed and the configs (the RNG
    stream is threaded explicitly, and no other state exists). -/
theorem C3_pipeline_deterministic (tc : TerrainConfig) (cc : ClimateConfig)
    (sqrtf powf expf : ℚ → ℚ) (seed : ℕ) (r1 r2 : RNG)
    (h1 : r1 = RNG.init seed) (h2 : r2 = RNG.init seed) :
    pipelineFrom tc cc sqrtf powf expf r1 = pipelineFrom tc cc sqrtf powf expf r2 := by
  subst h1
  subst h2
  rfl

/-- Witness for C3 at seed 7 with a small config. -/
theorem C3_witness :
    pipelineFrom (TerrainConfig.mk 2 2 (2 / 5) 1 1 (3 / 10) 0)
        (ClimateConfig.mk (2 / 5) (47 / 2) 15 70 40 (9 / 10)) id id id (RNG.init 7) =
      pipelineFrom (TerrainConfig.mk 2 2 (2 / 5) 1 1 (3 / 10) 0)
        (ClimateConfig.mk (2 / 5) (47 / 2) 15 70 40 (9 / 10)) id id id (RNG.init 7) :=
  C3_pipeline_deterministic _ _ _ _ _ 7 _ _ rfl rfl

-- ───────────────────── Claim C10: the no-ocean edge case ─────────────────────

theorem mem_gridCells {w h : ℕ} {c : ℕ × ℕ} : c ∈ gridCells w h ↔ c.1 < w ∧ c.2 < h := by
  simp only [gridCells, List.mem_map, List.mem_range]
  constructor
  · rintro ⟨i, hi, rfl⟩
    have hw : 0 < w := by
      rcases Nat.eq_zero_or_pos w with h0 | h0
      · rw [h0] at hi; omega
      · exact h0
    refine ⟨Nat.mod_lt i hw, ?_⟩
    rw [Nat.div_lt_iff_lt_mul hw]
    calc i < w * h := hi
    _ = h * w := Nat.mul_comm w h
  · rintro ⟨h1, h2⟩
    refine ⟨c.2 * w + c.1, cellIdx_lt h1 h2, ?_⟩
    have e1 : c.2 * w + c.1 = c.1 + w * c.2 := by ring
    have emod : (c.2 * w + c.1) % w = c.1 := by
      rw [e1, Nat.add_mul_mod_self_left, Nat.mod_eq_of_lt h1]
    have ediv : (c.2 * w + c.1) / w = c.2 := by
      rw [e1, Nat.add_mul_div_left _ _ (by omega : 0 < w), Nat.div_eq_of_lt h1]
      omega
    rw [emod, ediv]

theorem oceanCellsList_nil (elev : Heightmap) (sea : ℚ)
    (hno : ∀ x, x < elev.width → ∀ y, y < elev.height → ¬ elev.get x y < sea) :
    oceanCellsList elev sea = [] := by
  unfold oceanCellsList
  rw [List.filter_eq_nil_iff]
  intro c hc
  obtain ⟨h1, h2⟩ := mem_gridCells.mp hc
  simp only [decide_eq_true_eq]
  exact hno c.1 h1 c.2 h2

theorem bfsLoop_nil (w h fuel : ℕ) (dist : Heightmap) : bfsLoop w h fuel [] dist = dist := by
  cases fuel <;> rfl

theorem ocean_distance_no_ocean (elev : Heightmap) (cfg : ClimateConfig)
    (hno : ∀ x, x < elev.width → ∀ y, y < elev.height → ¬ elev.get x y < cfg.sea_level)
    {x y : ℕ} (hx : x < elev.width) (hy : y < elev.height) :
    (compute_ocean_distance elev cfg).get x y = -1 := by
  unfold compute_ocean_distance
  rw [oceanCellsList_nil elev cfg.sea_level hno, bfsLoop_nil]
  unfold seedDist
  rw [get_mapCells _ _ _ hx hy, if_neg (hno x hx y hy)]

theorem qclamp_mem (v lo hi : ℚ) (hlh : lo ≤ hi) :
    lo ≤ qclamp v lo hi ∧ qclamp v lo hi ≤ hi := by
  unfold qclamp
  split_ifs with h1 h2
  · exact ⟨le_refl lo, hlh⟩
  · exact ⟨hlh, le_refl hi⟩
  · exact ⟨le_of_not_lt h1, le_of_not_lt h2⟩

theorem moistureLand_mem (perm : ℕ → ℕ) (cfg : ClimateConfig) (w h x y : ℕ)
    (e f : ℚ) (expf : ℚ → ℚ) :
    0 ≤ moistureLand perm cfg w h x y e f expf ∧ moistureLand perm cfg w h x y e f expf ≤ 1 := by
  unfold moistureLand
  exact qclamp_mem _ 0 1 (by norm_num)

/-- Claim C10: on a map with no cell below sea level, compute_ocean_distance
    returns -1 at every cell, and generate_moisture still yields a fully
    defined width*height grid in which every cell goes through the land branch
    with ocean-proximity factor exactly 1 (the negative distance clamps to 0
    in dist/max_dist; std::pow(1, 0.4) = 1), each result clamped to [0, 1]. -/
theorem C10_no_ocean_moisture (elev temp : Heightmap) (cfg : ClimateConfig) (r : RNG)
    (sqrtf powf expf : ℚ → ℚ)
    (hno : ∀ x, x < elev.width → ∀ y, y < elev.height → ¬ elev.get x y < cfg.sea_level)
    (hsq : 0 < sqrtf ((elev.width * elev.width + elev.height * elev.height : ℕ) : ℚ))
    (hpw : powf 1 = 1) {x y : ℕ} (hx : x < elev.width) (hy : y < elev.height) :
    (compute_ocean_distance elev cfg).get x y = -1 ∧
    (generate_moisture elev temp cfg r sqrtf powf expf).1.data.length =
      elev.width * elev.height ∧
    (generate_moisture elev temp cfg r sqrtf powf expf).1.get x y =
      moistureLand (PerlinNoise.mkPerm (r.next_u64).1) cfg elev.width elev.height x y
        (elev.get x y) 1 expf ∧
    0 ≤ (generate_moisture elev temp cfg r sqrtf powf expf).1.get x y ∧
    (generate_moisture elev temp cfg r sqrtf powf expf).1.get x y ≤ 1 := by
  have ha : (compute_ocean_distance elev cfg).get x y = -1 :=
    ocean_distance_no_ocean elev cfg hno hx hy
  have hg : (generate_moisture elev temp cfg r sqrtf powf expf).1 =
      Heightmap.mk elev.width elev.height (mapCells elev.width elev.height
        (moistureAt (PerlinNoise.mkPerm (r.next_u64).1) cfg elev.width elev.height elev
          (compute_ocean_distance elev cfg) sqrtf powf expf)) := rfl
  have hget : (generate_moisture elev temp cfg r sqrtf powf expf).1.get x y =
      moistureLand (PerlinNoise.mkPerm (r.next_u64).1) cfg elev.width elev.height x y
        (elev.get x y) 1 expf := by
    rw [hg, get_mapCells _ _ _ hx hy]
    unfold moistureAt
    dsimp only
    rw [if_neg (hno x hx y hy), ha]
    have hmd : 0 < sqrtf ((elev.width * elev.width + elev.height * elev.height : ℕ) : ℚ) *
        (1 / 2) := mul_pos hsq (by norm_num)
    have hneg : (-1 : ℚ) / (sqrtf ((elev.width * elev.width +
        elev.height * elev.height : ℕ) : ℚ) * (1 / 2)) < 0 :=
      div_neg_of_neg_of_pos (by norm_num) hmd
    have hclamp : qclamp ((-1 : ℚ) / (sqrtf ((elev.width * elev.width +
        elev.height * elev.height : ℕ) : ℚ) * (1 / 2))) 0 1 = 0 := by
      unfold qclamp
      rw [if_pos hneg]
    rw [hclamp, sub_zero, hpw]
  refine ⟨ha, ?_, hget, ?_, ?_⟩
  · rw [hg]
    exact mapCells_length _ _ _
  · rw [hget]
    exact (moistureLand_mem _ _ _ _ _ _ _ _ _).1
  · rw [hget]
    exact (moistureLand_mem _ _ _ _ _ _ _ _ _).2

/-- Witness for C10 at a concrete all-land 2 x 2 grid. -/
theorem C10_witness :
    (compute_ocean_distance (Heightmap.mk 2 2 (List.replicate 4 (1 / 2)))
      (ClimateConfig.mk (2 / 5) (47 / 2) 15 70 40 (9 / 10))).get 0 0 = -1 ∧
    (generate_moisture (Heightmap.mk 2 2 (List.replicate 4 (1 / 2)))
      (Heightmap.mk 2 2 (List.replicate 4 (1 / 2)))
      (ClimateConfig.mk (2 / 5) (47 / 2) 15 70 40 (9 / 10)) (RNG.init 0)
      (fun _ => 1) id id).1.data.length =
      (Heightmap.mk 2 2 (List.replicate 4 (1 / 2))).width *
        (Heightmap.mk 2 2 (List.replicate 4 (1 / 2))).height ∧
    (generate_moisture (Heightmap.mk 2 2 (List.replicate 4 (1 / 2)))
      (Heightmap.mk 2 2 (List.replicate 4 (1 / 2)))
      (ClimateConfig.mk (2 / 5) (47 / 2) 15 70 40 (9 / 10)) (RNG.init 0)
      (fun _ => 1) id id).1.get 0 0 =
      moistureLand (PerlinNoise.mkPerm ((RNG.init 0).next_u64).1)
        (ClimateConfig.mk (2 / 5) (47 / 2) 15 70 40 (9 / 10))
        (Heightmap.mk 2 2 (List.replicate 4 (1 / 2))).width
        (Heightmap.mk 2 2 (List.replicate 4 (1 / 2))).height 0 0
        ((Heightmap.mk 2 2 (List.replicate 4 (1 / 2))).get 0 0) 1 id ∧
    0 ≤ (generate_moisture (Heightmap.mk 2 2 (List.replicate 4 (1 / 2)))
      (Heightmap.mk 2 2 (List.replicate 4 (1 / 2)))
      (ClimateConfig.mk (2 / 5) (47 / 2) 15 70 40 (9 / 10)) (RNG.init 0)
      (fun _ => 1) id id).1.get 0 0 ∧
    (generate_moisture (Heightmap.mk 2 2 (List.replicate 4 (1 / 2)))
      (Heightmap.mk 2 2 (List.replicate 4 (1 / 2)))
      (ClimateConfig.mk (2 / 5) (47 / 2) 15 70 40 (9 / 10)) (RNG.init 0)
      (fun _ => 1) id id).1.get 0 0 ≤ 1 :=
  C10_no_ocean_moisture _ _ _ _ _ _ _ (by decide) (by norm_num) rfl
    (by norm_num) (by norm_num)

-- ───────────────────── Claim C8: BFS ocean distances ─────────────────────

/-- Membership of the w x h grid. -/
def inGrid (w h : ℕ) (c : ℕ × ℕ) : Prop := c.1 < w ∧ c.2 < h

/-- An ocean cell: an in-grid cell whose elevation lies below sea level. -/
def oceanP (elev : Heightmap) (sea : ℚ) (c : ℕ × ℕ) : Prop :=
  c.1 < elev.width ∧ c.2 < elev.height ∧ elev.get c.1 c.2 < sea

/-- Reachability of the claim text: reaches n c holds when there is a
    4-connected in-grid path of n steps from some cell below sea level to c. -/
inductive reaches (elev : Heightmap) (sea : ℚ) : ℕ → ℕ × ℕ → Prop
  | ocean (c : ℕ × ℕ) (h1 : c.1 < elev.width) (h2 : c.2 < elev.height)
      (ho : elev.get c.1 c.2 < sea) : reaches elev sea 0 c
  | step (n : ℕ) (c d : ℕ × ℕ) (hr : reaches elev sea n c)
      (hd : d ∈ neighbours elev.width elev.height c) : reaches elev sea (n + 1) d

theorem mem_neighbours {w h : ℕ} {c d : ℕ × ℕ} :
    d ∈ neighbours w h c ↔ d.1 < w ∧ d.2 < h ∧
      ((d.1 + 1 = c.1 ∧ d.2 = c.2) ∨ (d.1 = c.1 + 1 ∧ d.2 = c.2) ∨
       (d.1 = c.1 ∧ d.2 + 1 = c.2) ∨ (d.1 = c.1 ∧ d.2 = c.2 + 1)) := by
  unfold neighbours
  rw [List.mem_filterMap]
  constructor
  · rintro ⟨a, ha, hsome⟩
    simp only [List.mem_cons, List.not_mem_nil, or_false] at ha
    rcases ha with rfl | rfl | rfl | rfl <;>
    · dsimp only at hsome
      split at hsome
      · rename_i hcond
        obtain ⟨hc1, hc2, hc3, hc4⟩ := hcond
        obtain ⟨rfl⟩ := Option.some.inj hsome
        refine ⟨by omega, by omega, by omega⟩
      · exact Option.noConfusion hsome
  · rintro ⟨hd1, hd2, hcase⟩
    rcases hcase with ⟨e1, e2⟩ | ⟨e1, e2⟩ | ⟨e1, e2⟩ | ⟨e1, e2⟩
    · refine ⟨(-1, 0), by simp, ?_⟩
      dsimp only
      rw [if_pos (by omega)]
      congr 1
      exact Prod.ext_iff.mpr ⟨by omega, by omega⟩
    · refine ⟨(1, 0), by simp, ?_⟩
      dsimp only
      rw [if_pos (by omega)]
      congr 1
      exact Prod.ext_iff.mpr ⟨by omega, by omega⟩
    · refine ⟨(0, -1), by simp, ?_⟩
      dsimp only
      rw [if_pos (by omega)]
      congr 1
      exact Prod.ext_iff.mpr ⟨by omega, by omega⟩
    · refine ⟨(0, 1), by simp, ?_⟩
      dsimp only
      rw [if_pos (by omega)]
      congr 1
      exact Prod.ext_iff.mpr ⟨by omega, by omega⟩

theorem neighbours_inGrid {w h : ℕ} {c d : ℕ × ℕ} (hd : d ∈ neighbours w h c) :
    inGrid w h d := by
  have := mem_neighbours.mp hd
  exact ⟨this.1, this.2.1⟩

theorem neighbours_nodup (w h : ℕ) (c : ℕ × ℕ) : (neighbours w h c).Nodup := by
  unfold neighbours
  apply List.Nodup.filterMap
  · intro a a' b hb hb'
    dsimp only at hb hb'
    split at hb
    · rename_i hca
      split at hb'
      · rename_i hca'
        obtain rfl := Option.some.inj hb
        have hbe := Option.some.inj hb'
        rw [Prod.mk.injEq] at hbe
        obtain ⟨hca1, hca2, hca3, hca4⟩ := hca
        obtain ⟨hca1', hca2', hca3', hca4'⟩ := hca'
        obtain ⟨hbe1, hbe2⟩ := hbe
        exact Prod.ext_iff.mpr ⟨by omega, by omega⟩
      · exact Option.noConfusion hb'
    · exact Option.noConfusion hb
  · decide

theorem reaches_inGrid {elev : Heightmap} {sea : ℚ} {n : ℕ} {c : ℕ × ℕ}
    (hr : reaches elev sea n c) : inGrid elev.width elev.height c := by
  induction hr with
  | ocean c h1 h2 _ => exact ⟨h1, h2⟩
  | step n c d _ hd _ => exact neighbours_inGrid hd

/-- Any in-grid cell is reachable from any reached cell: walk the column and
    the row, one neighbour step at a time. -/
theorem reaches_walk (elev : Heightmap) (sea : ℚ) (b : ℕ × ℕ)
    (hb : inGrid elev.width elev.height b) :
    ∀ d : ℕ, ∀ a : ℕ × ℕ, inGrid elev.width elev.height a →
      (a.1 - b.1) + (b.1 - a.1) + (a.2 - b.2) + (b.2 - a.2) = d →
      ∀ n, reaches elev sea n a → ∃ m, reaches elev sea m b := by
  obtain ⟨hb1, hb2⟩ := hb
  intro d
  induction d using Nat.strong_induction_on with
  | _ d ih =>
    intro a ha hd n hr
    obtain ⟨ha1, ha2⟩ := ha
    by_cases hab : a = b
    · subst hab
      exact ⟨n, hr⟩
    · have hne : a.1 ≠ b.1 ∨ a.2 ≠ b.2 := by
        by_contra hcon
        push_neg at hcon
        exact hab (Prod.ext_iff.mpr ⟨hcon.1, hcon.2⟩)
      rcases Nat.lt_trichotomy a.1 b.1 with h1 | h1 | h1
      · have hnb : ((a.1 + 1, a.2) : ℕ × ℕ) ∈ neighbours elev.width elev.height a := by
          rw [mem_neighbours]
          exact ⟨by omega, ha2, Or.inr (Or.inl ⟨rfl, rfl⟩)⟩
        exact ih ((a.1 + 1 - b.1) + (b.1 - (a.1 + 1)) + (a.2 - b.2) + (b.2 - a.2))
          (by omega) (a.1 + 1, a.2) ⟨by omega, ha2⟩ rfl (n + 1)
          (reaches.step n a _ hr hnb)
      · rcases Nat.lt_trichotomy a.2 b.2 with h2 | h2 | h2
        · have hnb : ((a.1, a.2 + 1) : ℕ × ℕ) ∈ neighbours elev.width elev.height a := by
            rw [mem_neighbours]
            exact ⟨ha1, by omega, Or.inr (Or.inr (Or.inr ⟨rfl, rfl⟩))⟩
          exact ih ((a.1 - b.1) + (b.1 - a.1) + (a.2 + 1 - b.2) + (b.2 - (a.2 + 1)))
            (by omega) (a.1, a.2 + 1) ⟨ha1, by omega⟩ rfl (n + 1)
            (reaches.step n a _ hr hnb)
        · exact absurd (Prod.ext_iff.mpr ⟨h1, h2⟩) hab
        · have hnb : ((a.1, a.2 - 1) : ℕ × ℕ) ∈ neighbours elev.width elev.height a := by
            rw [mem_neighbours]
            exact ⟨ha1, by omega, Or.inr (Or.inr (Or.inl ⟨rfl, by omega⟩))⟩
          exact ih ((a.1 - b.1) + (b.1 - a.1) + (a.2 - 1 - b.2) + (b.2 - (a.2 - 1)))
            (by omega) (a.1, a.2 - 1) ⟨ha1, by omega⟩ rfl (n + 1)
            (reaches.step n a _ hr hnb)
      · have hnb : ((a.1 - 1, a.2) : ℕ × ℕ) ∈ neighbours elev.width elev.height a := by
          rw [mem_neighbours]
          exact ⟨by omega, ha2, Or.inl ⟨by omega, rfl⟩⟩
        exact ih ((a.1 - 1 - b.1) + (b.1 - (a.1 - 1)) + (a.2 - b.2) + (b.2 - a.2))
          (by omega) (a.1 - 1, a.2) ⟨by omega, ha2⟩ rfl (n + 1)
          (reaches.step n a _ hr hnb)

theorem reaches_of_ocean_exists (elev : Heightmap) (sea : ℚ)
    (ho : ∃ c0, oceanP elev sea c0) (c : ℕ × ℕ) (hc : inGrid elev.width elev.height c) :
    ∃ m, reaches elev sea m c := by
  obtain ⟨c0, h1, h2, h3⟩ := ho
  exact reaches_walk elev sea c hc _ c0 ⟨h1, h2⟩ rfl 0 (reaches.ocean c0 h1 h2 h3)

theorem countP_flip {α : Type} [DecidableEq α] :
    ∀ (l : List α), l.Nodup → ∀ (c : α), c ∈ l → ∀ (p p' : α → Bool), p c = true →
      p' c = false → (∀ x ∈ l, x ≠ c → p' x = p x) → l.countP p' + 1 = l.countP p := by
  intro l
  induction l with
  | nil => intro _ c hc; cases hc
  | cons a tl ih =>
      intro hnd c hc p p' hpc hp'c hagree
      rcases List.mem_cons.mp hc with rfl | hctl
      · rw [List.countP_cons, List.countP_cons, hpc, hp'c]
        have heq : tl.countP p' = tl.countP p := by
          apply List.countP_congr
          intro x hx
          have hxc : x ≠ c := fun he => (List.nodup_cons.mp hnd).1 (he ▸ hx)
          rw [hagree x (List.mem_cons_of_mem _ hx) hxc]
        rw [heq]
        simp
      · rw [List.countP_cons, List.countP_cons]
        have ha : p' a = p a := hagree a (List.mem_cons_self a tl)
          (fun he => (List.nodup_cons.mp hnd).1 (he ▸ hctl))
        rw [ha]
        have hrec := ih (List.nodup_cons.mp hnd).2 c hctl p p' hpc hp'c
          (fun x hx hxc => hagree x (List.mem_cons_of_mem a hx) hxc)
        omega

theorem gridCells_nodup (w h : ℕ) : (gridCells w h).Nodup := by
  apply List.Nodup.map_on _ (List.nodup_range _)
  intro i hi j hj hij
  rw [List.mem_range] at hi hj
  have hw : 0 < w := by
    rcases Nat.eq_zero_or_pos w with h0 | h0
    · rw [h0] at hi; omega
    · exact h0
  rw [Prod.mk.injEq] at hij
  obtain ⟨h1, h2⟩ := hij
  calc i = w * (i / w) + i % w := (Nat.div_add_mod i w).symm
  _ = w * (j / w) + j % w := by rw [h1, h2]
  _ = j := Nat.div_add_mod j w

/-- Number of still-unvisited cells of the distance grid. -/
def unvisCount (w h : ℕ) (D : Heightmap) : ℕ :=
  (gridCells w h).countP (fun c => decide (D.get c.1 c.2 < 0))

/-- The loop invariant of the BFS flood fill, with the queue split into a
    front block A at distance d0 and a back block B at distance d0 + 1. -/
structure BFSInv (elev : Heightmap) (sea : ℚ) (Q : List (ℕ × ℕ)) (D : Heightmap)
    (d0 : ℕ) (A B : List (ℕ × ℕ)) : Prop where
  dims : HasDims D elev.width elev.height
  qsplit : Q = A ++ B
  avals : ∀ c ∈ A, inGrid elev.width elev.height c ∧ D.get c.1 c.2 = (d0 : ℚ)
  bvals : ∀ c ∈ B, inGrid elev.width elev.height c ∧ D.get c.1 c.2 = (d0 : ℚ) + 1
  vals : ∀ c, inGrid elev.width elev.height c →
    D.get c.1 c.2 = -1 ∨ ∃ n : ℕ, D.get c.1 c.2 = (n : ℚ)
  sound : ∀ c, inGrid elev.width elev.height c → ∀ n : ℕ, D.get c.1 c.2 = (n : ℚ) →
    reaches elev sea n c ∧ ∀ m, reaches elev sea m c → n ≤ m
  front : ∀ c, inGrid elev.width elev.height c → D.get c.1 c.2 ≠ -1 → c ∉ Q →
    ∀ d ∈ neighbours elev.width elev.height c, D.get d.1 d.2 ≠ -1
  oceanSet : ∀ c, oceanP elev sea c → D.get c.1 c.2 ≠ -1
  minUnvis : ∀ c, inGrid elev.width elev.height c → D.get c.1 c.2 = -1 →
    ∀ m, reaches elev sea m c → d0 + 1 ≤ m

theorem seedDist_get (elev : Heightmap) (sea : ℚ) {x y : ℕ} (hx : x < elev.width)
    (hy : y < elev.height) :
    (seedDist elev sea).get x y = (if elev.get x y < sea then (0 : ℚ) else -1) := by
  unfold seedDist
  exact get_mapCells _ _ _ hx hy

theorem mem_oceanCellsList (elev : Heightmap) (sea : ℚ) {c : ℕ × ℕ} :
    c ∈ oceanCellsList elev sea ↔ oceanP elev sea c := by
  unfold oceanCellsList oceanP
  rw [List.mem_filter, mem_gridCells]
  simp only [decide_eq_true_eq]
  tauto

theorem bfs_init (elev : Heightmap) (sea : ℚ) :
    BFSInv elev sea (oceanCellsList elev sea) (seedDist elev sea) 0
      (oceanCellsList elev sea) [] := by
  have hdims : HasDims (seedDist elev sea) elev.width elev.height := by
    refine ⟨rfl, rfl, ?_⟩
    unfold seedDist
    dsimp only
    exact mapCells_length _ _ _
  refine ⟨hdims, (List.append_nil _).symm, ?_, ?_, ?_, ?_, ?_, ?_, ?_⟩
  · intro c hc
    obtain ⟨h1, h2, h3⟩ := (mem_oceanCellsList elev sea).mp hc
    refine ⟨⟨h1, h2⟩, ?_⟩
    rw [seedDist_get elev sea h1 h2, if_pos h3]
    norm_num
  · intro c hc
    cases hc
  · intro c hc
    rw [seedDist_get elev sea hc.1 hc.2]
    split
    · right
      exact ⟨0, by norm_num⟩
    · left
      rfl
  · intro c hc n hn
    rw [seedDist_get elev sea hc.1 hc.2] at hn
    split at hn
    · rename_i hocean
      have hn0 : n = 0 := by exact_mod_cast hn.symm
      subst hn0
      exact ⟨reaches.ocean c hc.1 hc.2 hocean, fun m _ => Nat.zero_le m⟩
    · exfalso
      have : (0 : ℚ) ≤ (n : ℚ) := Nat.cast_nonneg n
      rw [← hn] at this
      norm_num at this
  · intro c hc hvis hq
    exfalso
    rw [seedDist_get elev sea hc.1 hc.2] at hvis
    split at hvis
    · rename_i hocean
      exact hq ((mem_oceanCellsList elev sea).mpr ⟨hc.1, hc.2, hocean⟩)
    · exact hvis rfl
  · intro c hoc
    rw [seedDist_get elev sea hoc.1 hoc.2.1, if_pos hoc.2.2]
    norm_num
  · intro c hc hun m hm
    rw [seedDist_get elev sea hc.1 hc.2] at hun
    match m, hm with
    | 0, hm =>
        exfalso
        cases hm with
        | ocean _ h1 h2 ho =>
            rw [if_pos ho] at hun
            norm_num at hun
    | m + 1, _ => omega

theorem gridCells_length (w h : ℕ) : (gridCells w h).length = w * h := by
  unfold gridCells
  rw [List.length_map, List.length_range]

theorem init_count (elev : Heightmap) (sea : ℚ) :
    (oceanCellsList elev sea).length +
      unvisCount elev.width elev.height (seedDist elev sea) =
      elev.width * elev.height := by
  unfold oceanCellsList unvisCount
  rw [← List.countP_eq_length_filter]
  have hcongr : (gridCells elev.width elev.height).countP
      (fun c => decide ((seedDist elev sea).get c.1 c.2 < 0)) =
      (gridCells elev.width elev.height).countP
      (fun c => decide (¬ (fun z : ℕ × ℕ => decide (elev.get z.1 z.2 < sea)) c = true)) := by
    apply List.countP_congr
    intro c hc
    obtain ⟨h1, h2⟩ := mem_gridCells.mp hc
    rw [seedDist_get elev sea h1 h2]
    split
    · rename_i hoc
      simp [hoc]
    · rename_i hoc
      simp [hoc]
  rw [hcongr, ← gridCells_length elev.width elev.height]
  exact (List.length_eq_countP_add_countP
    (fun z : ℕ × ℕ => decide (elev.get z.1 z.2 < sea)) _).symm

/-- The neighbour-scan fold of one BFS dequeue, over an arbitrary cell list. -/
def bfsFold (w h : ℕ) (cd : ℚ) (ns q : List (ℕ × ℕ)) (dist : Heightmap) :
    List (ℕ × ℕ) × Heightmap :=
  ns.foldl (fun p n => if p.2.get n.1 n.2 < 0 then (p.1 ++ [n], p.2.set n.1 n.2 (cd + 1)) else p)
    (q, dist)

theorem pushNbrs_eq_bfsFold (w h : ℕ) (cd : ℚ) (c : ℕ × ℕ) (q : List (ℕ × ℕ))
    (dist : Heightmap) :
    pushNbrs w h cd c q dist = bfsFold w h cd (neighbours w h c) q dist := rfl

theorem bfsFold_spec (w h : ℕ) (cd : ℚ) (hcd : ¬ cd + 1 < 0) :
    ∀ (ns : List (ℕ × ℕ)), ns.Nodup → (∀ n ∈ ns, inGrid w h n) →
    ∀ (q : List (ℕ × ℕ)) (dist : Heightmap), HasDims dist w h →
      (bfsFold w h cd ns q dist).1 =
        q ++ ns.filter (fun n => decide (dist.get n.1 n.2 < 0)) ∧
      HasDims (bfsFold w h cd ns q dist).2 w h ∧
      (∀ z : ℕ × ℕ, inGrid w h z →
        (bfsFold w h cd ns q dist).2.get z.1 z.2 =
          if z ∈ ns ∧ dist.get z.1 z.2 < 0 then cd + 1 else dist.get z.1 z.2) ∧
      (bfsFold w h cd ns q dist).1.length +
          unvisCount w h (bfsFold w h cd ns q dist).2 =
        q.length + unvisCount w h dist := by
  intro ns
  induction ns with
  | nil =>
      intro _ _ q dist hdims
      refine ⟨by simp [bfsFold], hdims, ?_, by simp [bfsFold]⟩
      intro z hz
      simp [bfsFold]
  | cons n ns ih =>
      intro hnd hmem q dist hdims
      have hnin : n ∉ ns := (List.nodup_cons.mp hnd).1
      have hndtl : ns.Nodup := (List.nodup_cons.mp hnd).2
      have hmemtl : ∀ m ∈ ns, inGrid w h m := fun m hm => hmem m (List.mem_cons_of_mem n hm)
      have hng : inGrid w h n := hmem n (List.mem_cons_self n ns)
      obtain ⟨hn1, hn2⟩ := hng
      have hfold : bfsFold w h cd (n :: ns) q dist =
          (if dist.get n.1 n.2 < 0 then bfsFold w h cd ns (q ++ [n])
            (dist.set n.1 n.2 (cd + 1)) else bfsFold w h cd ns q dist) := by
        unfold bfsFold
        rw [List.foldl_cons]
        dsimp only
        split <;> rfl
      by_cases hget : dist.get n.1 n.2 < 0
      · rw [hfold, if_pos hget]
        have hdims' : HasDims (dist.set n.1 n.2 (cd + 1)) w h := hasDims_set hdims _ _ _
        obtain ⟨ihq, ihd, ihg, ihc⟩ := ih hndtl hmemtl (q ++ [n]) (dist.set n.1 n.2 (cd + 1)) hdims'
        have hw1 : n.1 < dist.width := by rw [hdims.1]; exact hn1
        have hsetne : ∀ z : ℕ × ℕ, inGrid w h z → z ≠ n →
            (dist.set n.1 n.2 (cd + 1)).get z.1 z.2 = dist.get z.1 z.2 := by
          intro z hz hzn
          have hzw : z.1 < dist.width := by rw [hdims.1]; exact hz.1
          refine Heightmap.get_set_ne dist (cd + 1) hw1 hzw ?_
          intro he
          rw [Prod.mk.injEq] at he
          exact hzn (by rw [Prod.ext_iff]; exact ⟨he.1.symm, he.2.symm⟩)
        have hsets : (dist.set n.1 n.2 (cd + 1)).get n.1 n.2 = cd + 1 := by
          apply Heightmap.get_set_self
          rw [hdims.1, hdims.2.2]
          calc n.2 * w + n.1 < (n.2 + 1) * w := by rw [Nat.succ_mul]; omega
            _ ≤ h * w := Nat.mul_le_mul_right w hn2
            _ = w * h := Nat.mul_comm h w
        refine ⟨?_, ihd, ?_, ?_⟩
        · rw [ihq]
          have hfc : (n :: ns).filter (fun m => decide (dist.get m.1 m.2 < 0)) =
              n :: ns.filter (fun m => decide (dist.get m.1 m.2 < 0)) := by
            simp [List.filter_cons, hget]
          have hfe : ns.filter
                (fun m => decide ((dist.set n.1 n.2 (cd + 1)).get m.1 m.2 < 0)) =
              ns.filter (fun m => decide (dist.get m.1 m.2 < 0)) := by
            apply List.filter_congr
            intro m hm
            rw [hsetne m (hmemtl m hm) (fun he => hnin (he ▸ hm))]
          rw [hfe, hfc, List.append_assoc]
          rfl
        · intro z hz
          rw [ihg z hz]
          by_cases hzn : z = n
          · subst hzn
            have hLc : ¬ (z ∈ ns ∧ (dist.set z.1 z.2 (cd + 1)).get z.1 z.2 < 0) :=
              fun hcl => hnin hcl.1
            rw [if_neg hLc, if_pos ⟨List.mem_cons_self z ns, hget⟩, hsets]
          · have hpz := hsetne z hz hzn
            simp only [hpz]
            have hiff : (z ∈ ns ∧ dist.get z.1 z.2 < 0) ↔
                (z ∈ n :: ns ∧ dist.get z.1 z.2 < 0) := by
              constructor
              · exact fun hcl => ⟨List.mem_cons_of_mem n hcl.1, hcl.2⟩
              · rintro ⟨hm, hp⟩
                rcases List.mem_cons.mp hm with he | hm2
                · exact absurd he hzn
                · exact ⟨hm2, hp⟩
            exact if_congr hiff rfl rfl
        · have hflip : unvisCount w h (dist.set n.1 n.2 (cd + 1)) + 1 =
              unvisCount w h dist := by
            unfold unvisCount
            refine countP_flip (gridCells w h) (gridCells_nodup w h) n
              (mem_gridCells.mpr ⟨hn1, hn2⟩) _ _ (decide_eq_true hget) ?_ ?_
            · dsimp only
              rw [hsets]
              exact decide_eq_false hcd
            · intro z hzl hzn
              dsimp only
              rw [hsetne z (mem_gridCells.mp hzl) hzn]
          rw [ihc, List.length_append, List.length_singleton]
          omega
      · rw [hfold, if_neg hget]
        obtain ⟨ihq, ihd, ihg, ihc⟩ := ih hndtl hmemtl q dist hdims
        refine ⟨?_, ihd, ?_, ihc⟩
        · rw [ihq]
          have hfc : (n :: ns).filter (fun m => decide (dist.get m.1 m.2 < 0)) =
              ns.filter (fun m => decide (dist.get m.1 m.2 < 0)) := by
            simp [List.filter_cons, hget]
          rw [hfc]
        · intro z hz
          rw [ihg z hz]
          have hiff : (z ∈ ns ∧ dist.get z.1 z.2 < 0) ↔
              (z ∈ n :: ns ∧ dist.get z.1 z.2 < 0) := by
            constructor
            · exact fun hcl => ⟨List.mem_cons_of_mem n hcl.1, hcl.2⟩
            · rintro ⟨hm, hp⟩
              rcases List.mem_cons.mp hm with he | hm2
              · exact absurd (he ▸ hp) hget
              · exact ⟨hm2, hp⟩
          exact if_congr hiff rfl rfl

/-- When the front block of the queue is exhausted, every still-unvisited cell
    is at least two steps beyond the current layer: a cell at distance d0 + 1
    would be a neighbour of a settled distance-d0 cell, whose neighbours have
    all been enqueued already. -/
theorem bfs_minUnvis_succ (elev : Heightmap) (sea : ℚ) (Q : List (ℕ × ℕ)) (D : Heightmap)
    (d0 : ℕ) (B : List (ℕ × ℕ)) (inv : BFSInv elev sea Q D d0 [] B) :
    ∀ z, inGrid elev.width elev.height z → D.get z.1 z.2 = -1 →
      ∀ m, reaches elev sea m z → d0 + 2 ≤ m := by
  intro z hz hzu m hm
  have h1 : d0 + 1 ≤ m := inv.minUnvis z hz hzu m hm
  by_contra hlt
  have hme : m = d0 + 1 := by omega
  subst hme
  cases hm
  rename_i c hr hd
  have hcg : inGrid elev.width elev.height c := reaches_inGrid hr
  have hcvis : D.get c.1 c.2 ≠ -1 := by
    intro hcu
    have := inv.minUnvis c hcg hcu d0 hr
    omega
  rcases inv.vals c hcg with hcu | ⟨k, hk⟩
  · exact hcvis hcu
  have hkle : k ≤ d0 := (inv.sound c hcg k hk).2 d0 hr
  have hcq : c ∉ Q := by
    intro hcQ
    have hQB : Q = B := by rw [inv.qsplit, List.nil_append]
    rw [hQB] at hcQ
    have hb := (inv.bvals c hcQ).2
    rw [hk] at hb
    have hb2 : (k : ℚ) = ((d0 + 1 : ℕ) : ℚ) := by push_cast; linarith
    have hkd : k = d0 + 1 := Nat.cast_inj.mp hb2
    omega
  exact inv.front c hcg hcvis hcq z hd hzu

/-- One BFS dequeue preserves the layered invariant and decreases the quantity
    queue length + unvisited count by exactly one. -/
theorem bfs_step_inv (elev : Heightmap) (sea : ℚ) (c : ℕ × ℕ) (rest : List (ℕ × ℕ))
    (D : Heightmap) (d0 : ℕ) (A B : List (ℕ × ℕ))
    (inv : BFSInv elev sea (c :: rest) D d0 A B) :
    ∃ d1 A1 B1, BFSInv elev sea
        (pushNbrs elev.width elev.height (D.get c.1 c.2) c rest D).1
        (pushNbrs elev.width elev.height (D.get c.1 c.2) c rest D).2 d1 A1 B1 ∧
      (pushNbrs elev.width elev.height (D.get c.1 c.2) c rest D).1.length +
          unvisCount elev.width elev.height
            (pushNbrs elev.width elev.height (D.get c.1 c.2) c rest D).2 + 1 =
        (c :: rest).length + unvisCount elev.width elev.height D := by
  have hstep : ∃ dc : ℕ, inGrid elev.width elev.height c ∧ D.get c.1 c.2 = (dc : ℚ) ∧
      (∀ z, inGrid elev.width elev.height z → D.get z.1 z.2 = -1 →
        ∀ m, reaches elev sea m z → dc + 1 ≤ m) ∧
      ((dc = d0 + 1 ∧ ∀ z ∈ rest,
          inGrid elev.width elev.height z ∧ D.get z.1 z.2 = (d0 : ℚ) + 1) ∨
       (dc = d0 ∧ ∃ A', rest = A' ++ B ∧ ∀ z ∈ A',
          inGrid elev.width elev.height z ∧ D.get z.1 z.2 = (d0 : ℚ))) := by
    cases A with
    | nil =>
        have hB : B = c :: rest := by
          have hq := inv.qsplit
          rw [List.nil_append] at hq
          exact hq.symm
        have hcB : c ∈ B := by rw [hB]; exact List.mem_cons_self c rest
        have hcv := inv.bvals c hcB
        refine ⟨d0 + 1, hcv.1, ?_, ?_, Or.inl ⟨rfl, ?_⟩⟩
        · rw [hcv.2]; push_cast; ring
        · intro z hz hzu m hm
          have := bfs_minUnvis_succ elev sea (c :: rest) D d0 B inv z hz hzu m hm
          omega
        · intro z hz
          exact inv.bvals z (by rw [hB]; exact List.mem_cons_of_mem c hz)
    | cons a A' =>
        have hq := inv.qsplit
        rw [List.cons_append] at hq
        injection hq with h1 h2
        subst h1
        have hca := inv.avals c (List.mem_cons_self c A')
        refine ⟨d0, hca.1, hca.2, ?_, Or.inr ⟨rfl, A', h2, ?_⟩⟩
        · intro z hz hzu m hm
          exact inv.minUnvis z hz hzu m hm
        · intro z hz
          exact inv.avals z (List.mem_cons_of_mem c hz)
  obtain ⟨dc, hcg, hdc, hminNext, hblock⟩ := hstep
  have hcd1 : ¬ D.get c.1 c.2 + 1 < 0 := by
    rw [hdc]
    intro hc
    have h0 : (0 : ℚ) ≤ (dc : ℚ) := Nat.cast_nonneg dc
    linarith
  rw [pushNbrs_eq_bfsFold elev.width elev.height (D.get c.1 c.2) c rest D]
  obtain ⟨hq1, hd1, hg1, hc1⟩ := bfsFold_spec elev.width elev.height (D.get c.1 c.2) hcd1
    (neighbours elev.width elev.height c) (neighbours_nodup elev.width elev.height c)
    (fun n hn => neighbours_inGrid hn) rest D inv.dims
  set P := bfsFold elev.width elev.height (D.get c.1 c.2)
    (neighbours elev.width elev.height c) rest D with hP
  have hnews : ∀ z : ℕ × ℕ, z ∈ (neighbours elev.width elev.height c).filter
      (fun n => decide (D.get n.1 n.2 < 0)) ↔
      z ∈ neighbours elev.width elev.height c ∧ D.get z.1 z.2 < 0 := by
    intro z
    rw [List.mem_filter, decide_eq_true_eq]
  have hD1get : ∀ z : ℕ × ℕ, inGrid elev.width elev.height z →
      P.2.get z.1 z.2 =
        if z ∈ neighbours elev.width elev.height c ∧ D.get z.1 z.2 < 0 then (dc : ℚ) + 1
        else D.get z.1 z.2 := by
    intro z hz
    rw [hg1 z hz, hdc]
  have hnocond : ∀ z : ℕ × ℕ, (0 : ℚ) ≤ D.get z.1 z.2 →
      ¬ (z ∈ neighbours elev.width elev.height c ∧ D.get z.1 z.2 < 0) := by
    rintro z h0 ⟨-, hlt⟩
    linarith
  have hvals : ∀ z, inGrid elev.width elev.height z →
      P.2.get z.1 z.2 = -1 ∨ ∃ n : ℕ, P.2.get z.1 z.2 = (n : ℚ) := by
    intro z hz
    rw [hD1get z hz]
    split
    · right
      exact ⟨dc + 1, by push_cast; ring⟩
    · exact inv.vals z hz
  have hsound : ∀ z, inGrid elev.width elev.height z → ∀ n : ℕ, P.2.get z.1 z.2 = (n : ℚ) →
      reaches elev sea n z ∧ ∀ m, reaches elev sea m z → n ≤ m := by
    intro z hz n hn
    rw [hD1get z hz] at hn
    split at hn
    · rename_i hcond
      have hn2 : ((dc + 1 : ℕ) : ℚ) = (n : ℚ) := by push_cast; linarith
      have hn3 : n = dc + 1 := (Nat.cast_inj.mp hn2).symm
      subst hn3
      refine ⟨reaches.step dc c z (inv.sound c hcg dc hdc).1 hcond.1, ?_⟩
      intro m hm
      have hzu : D.get z.1 z.2 = -1 := by
        rcases inv.vals z hz with he | ⟨k, hk⟩
        · exact he
        · exfalso
          have h0 : (0 : ℚ) ≤ (k : ℚ) := Nat.cast_nonneg k
          rw [hk] at hcond
          linarith [hcond.2]
      exact hminNext z hz hzu m hm
    · exact inv.sound z hz n hn
  have hocean : ∀ z, oceanP elev sea z → P.2.get z.1 z.2 ≠ -1 := by
    intro z hoz
    have hz : inGrid elev.width elev.height z := ⟨hoz.1, hoz.2.1⟩
    rw [hD1get z hz]
    split
    · intro hc
      have h0 : (0 : ℚ) ≤ (dc : ℚ) := Nat.cast_nonneg dc
      linarith
    · exact inv.oceanSet z hoz
  have hfront : ∀ z, inGrid elev.width elev.height z → P.2.get z.1 z.2 ≠ -1 →
      z ∉ P.1 → ∀ d ∈ neighbours elev.width elev.height z, P.2.get d.1 d.2 ≠ -1 := by
    intro z hz hzv hzq d hd
    rw [hq1] at hzq
    have hdg : inGrid elev.width elev.height d := neighbours_inGrid hd
    rw [hD1get d hdg]
    split
    · intro hc
      have h0 : (0 : ℚ) ≤ (dc : ℚ) := Nat.cast_nonneg dc
      linarith
    · rename_i hdcond
      by_cases hzc : z = c
      · subst hzc
        have hdnot : ¬ D.get d.1 d.2 < 0 := fun hlt => hdcond ⟨hd, hlt⟩
        intro he
        rw [he] at hdnot
        norm_num at hdnot
      · rw [hD1get z hz] at hzv
        split at hzv
        · rename_i hzcond
          exact absurd (List.mem_append.mpr (Or.inr ((hnews z).mpr hzcond))) hzq
        · have hzq0 : z ∉ c :: rest := by
            intro hzm
            rcases List.mem_cons.mp hzm with he | hzr
            · exact hzc he
            · exact hzq (List.mem_append.mpr (Or.inl hzr))
          exact inv.front z hz hzv hzq0 d hd
  have hminU : ∀ z, inGrid elev.width elev.height z → P.2.get z.1 z.2 = -1 →
      ∀ m, reaches elev sea m z → dc + 1 ≤ m := by
    intro z hz hzu m hm
    rw [hD1get z hz] at hzu
    split at hzu
    · exfalso
      have h0 : (0 : ℚ) ≤ (dc : ℚ) := Nat.cast_nonneg dc
      linarith
    · exact hminNext z hz hzu m hm
  rcases hblock with ⟨hdceq, hrest⟩ | ⟨hdceq, A', hrestEq, hA'⟩
  · refine ⟨dc, rest, (neighbours elev.width elev.height c).filter
        (fun n => decide (D.get n.1 n.2 < 0)),
      ⟨hd1, hq1, ?_, ?_, hvals, hsound, hfront, hocean, hminU⟩, ?_⟩
    · intro z hz
      obtain ⟨hzg, hzval⟩ := hrest z hz
      refine ⟨hzg, ?_⟩
      rw [hD1get z hzg, if_neg (hnocond z (by rw [hzval]; positivity)), hzval, hdceq]
      push_cast
      ring
    · intro z hz
      obtain ⟨hnb, hlt⟩ := (hnews z).mp hz
      have hzg := neighbours_inGrid hnb
      exact ⟨hzg, by rw [hD1get z hzg, if_pos ⟨hnb, hlt⟩]⟩
    · rw [hc1, List.length_cons]
      omega
  · refine ⟨dc, A', B ++ (neighbours elev.width elev.height c).filter
        (fun n => decide (D.get n.1 n.2 < 0)),
      ⟨hd1, ?_, ?_, ?_, hvals, hsound, hfront, hocean, hminU⟩, ?_⟩
    · rw [hq1, hrestEq, List.append_assoc]
    · intro z hz
      obtain ⟨hzg, hzval⟩ := hA' z hz
      refine ⟨hzg, ?_⟩
      rw [hD1get z hzg, if_neg (hnocond z (by rw [hzval]; positivity)), hzval, hdceq]
    · intro z hz
      rcases List.mem_append.mp hz with hzB | hzN
      · obtain ⟨hzg, hzval⟩ := inv.bvals z hzB
        refine ⟨hzg, ?_⟩
        rw [hD1get z hzg, if_neg (hnocond z (by rw [hzval]; positivity)), hzval, hdceq]
      · obtain ⟨hnb, hlt⟩ := (hnews z).mp hzN
        have hzg := neighbours_inGrid hnb
        exact ⟨hzg, by rw [hD1get z hzg, if_pos ⟨hnb, hlt⟩]⟩
    · rw [hc1, List.length_cons]
      omega

/-- Given enough fuel to cover queue length plus unvisited cells, the BFS loop
    terminates with an empty queue while the invariant still holds. -/
theorem bfs_run (elev : Heightmap) (sea : ℚ) :
    ∀ (fuel : ℕ) (Q : List (ℕ × ℕ)) (D : Heightmap) (d0 : ℕ) (A B : List (ℕ × ℕ)),
      BFSInv elev sea Q D d0 A B →
      Q.length + unvisCount elev.width elev.height D ≤ fuel →
      ∃ d1 A1 B1, BFSInv elev sea []
        (bfsLoop elev.width elev.height fuel Q D) d1 A1 B1 := by
  intro fuel
  induction fuel with
  | zero =>
      intro Q D d0 A B inv hle
      have hQ : Q = [] := List.length_eq_zero.mp (by omega)
      subst hQ
      exact ⟨d0, A, B, inv⟩
  | succ fuel ih =>
      intro Q D d0 A B inv hle
      cases Q with
      | nil => exact ⟨d0, A, B, inv⟩
      | cons c rest =>
          obtain ⟨d1, A1, B1, inv1, hcount⟩ := bfs_step_inv elev sea c rest D d0 A B inv
          have hloop : bfsLoop elev.width elev.height (fuel + 1) (c :: rest) D =
              bfsLoop elev.width elev.height fuel
                (pushNbrs elev.width elev.height (D.get c.1 c.2) c rest D).1
                (pushNbrs elev.width elev.height (D.get c.1 c.2) c rest D).2 := rfl
          rw [hloop]
          exact ih _ _ d1 A1 B1 inv1 (by omega)

/-- With an empty queue the flood fill is complete: every cell reachable from
    an ocean seed has been assigned a distance. -/
theorem bfs_complete (elev : Heightmap) (sea : ℚ) (D : Heightmap) (d1 : ℕ)
    (A B : List (ℕ × ℕ)) (inv : BFSInv elev sea [] D d1 A B) :
    ∀ m z, reaches elev sea m z → D.get z.1 z.2 ≠ -1 := by
  intro m
  induction m with
  | zero =>
      intro z hz
      cases hz
      rename_i h1 h2 ho
      exact inv.oceanSet z ⟨h1, h2, ho⟩
  | succ m ihm =>
      intro z hz
      cases hz
      rename_i c hr hd
      exact inv.front c (reaches_inGrid hr) (ihm c hr) (List.not_mem_nil c) z hd

/-- C8: for every elevation grid containing at least one cell below sea level,
    compute_ocean_distance assigns to every cell the length of the shortest
    4-connected path from an ocean cell (a cell with elevation < sea_level) to
    that cell; in particular every cell below sea level gets distance 0. -/
theorem C8_ocean_distance (elev : Heightmap) (cfg : ClimateConfig)
    (ho : ∃ c0, oceanP elev cfg.sea_level c0) (x y : ℕ)
    (hx : x < elev.width) (hy : y < elev.height) :
    (compute_ocean_distance elev cfg).get x y =
      ((sInf {n : ℕ | reaches elev cfg.sea_level n (x, y)} : ℕ) : ℚ) ∧
    (elev.get x y < cfg.sea_level → (compute_ocean_distance elev cfg).get x y = 0) := by
  obtain ⟨d1, A1, B1, invF⟩ := bfs_run elev cfg.sea_level (elev.width * elev.height)
    (oceanCellsList elev cfg.sea_level) (seedDist elev cfg.sea_level) 0
    (oceanCellsList elev cfg.sea_level) [] (bfs_init elev cfg.sea_level)
    (le_of_eq (init_count elev cfg.sea_level))
  have hD : bfsLoop elev.width elev.height (elev.width * elev.height)
      (oceanCellsList elev cfg.sea_level) (seedDist elev cfg.sea_level) =
      compute_ocean_distance elev cfg := rfl
  rw [hD] at invF
  obtain ⟨m0, hm0⟩ := reaches_of_ocean_exists elev cfg.sea_level ho (x, y) ⟨hx, hy⟩
  have hvis : (compute_ocean_distance elev cfg).get x y ≠ -1 :=
    bfs_complete elev cfg.sea_level (compute_ocean_distance elev cfg) d1 A1 B1 invF
      m0 (x, y) hm0
  rcases invF.vals (x, y) ⟨hx, hy⟩ with he | ⟨n, hn⟩
  · exact absurd he hvis
  have hs := invF.sound (x, y) ⟨hx, hy⟩ n hn
  have hsinf : sInf {k : ℕ | reaches elev cfg.sea_level k (x, y)} = n := by
    apply le_antisymm
    · exact Nat.sInf_le hs.1
    · exact le_csInf ⟨m0, hm0⟩ (fun b hb => hs.2 b hb)
  have hmain : (compute_ocean_distance elev cfg).get x y =
      ((sInf {n : ℕ | reaches elev cfg.sea_level n (x, y)} : ℕ) : ℚ) := by
    rw [hn, hsinf]
  refine ⟨hmain, ?_⟩
  intro hoc
  have hsinf0 : sInf {n : ℕ | reaches elev cfg.sea_level n (x, y)} = 0 :=
    Nat.eq_zero_of_le_zero (Nat.sInf_le (reaches.ocean (x, y) hx hy hoc))
  rw [hmain, hsinf0]
  norm_num

/-- Witness for C8 on a concrete 1x1 all-ocean grid. -/
theorem C8_witness :
    (compute_ocean_distance ⟨1, 1, [0]⟩ ⟨2/5, 47/2, 15, 70, 40, 9/10⟩).get 0 0 =
        ((sInf {n : ℕ | reaches ⟨1, 1, [0]⟩ (2/5) n (0, 0)} : ℕ) : ℚ) ∧
      ((⟨1, 1, [0]⟩ : Heightmap).get 0 0 < (2/5 : ℚ) →
        (compute_ocean_distance ⟨1, 1, [0]⟩ ⟨2/5, 47/2, 15, 70, 40, 9/10⟩).get 0 0 = 0) :=
  C8_ocean_distance ⟨1, 1, [0]⟩ ⟨2/5, 47/2, 15, 70, 40, 9/10⟩
    ⟨(0, 0), by unfold oceanP; decide⟩ 0 0 (by decide) (by decide)

end GodSim
